import Mathlib

/-!
# STM32F3xx flash programming algorithm (FlashPrg.c, FlashDev.c)

A shallow embedding of the flash driver.  The driver only talks to memory-mapped
registers, so the embedding is a state-passing program over a `Machine`: the
flash controller and watchdog register blocks, plus a chronological record of
every bus write the driver performs.

Hardware model.
* `FLASH->SR` is driven by the hardware: the value of its `k`-th read is supplied
  by a status function `sr : Nat → Nat` (reduced to 32 bits).  A write to it is
  recorded and the cell keeps the value last written.
* `FLASH->KEYR` clears `LOCK` in `CR` when `FLASH_KEY1` and then `FLASH_KEY2` are
  written; `FLASH->OPTKEYR` sets `OPTWRE` the same way.
* every other register is a 32-bit cell.
* the busy-wait loops have no bound in the source; they run on fuel, and a run
  that exhausts it yields no return value (`none`) and the machine reached so far.
-/

namespace STM32F3xx

/-! ## Machine integers -/

/-- Value of an `unsigned long` (32 bits on the target). -/
def u32 (x : Nat) : Nat := x % 2 ^ 32

/-- Value of an `unsigned short`. -/
def u16 (x : Nat) : Nat := x % 2 ^ 16

/-- Bitwise complement of a 32-bit value (`~x`). -/
def not32 (x : Nat) : Nat := 0xFFFFFFFF ^^^ x

/-! ## Constants of FlashPrg.c -/

abbrev RDPRT_KEY : Nat := 0x55AA
abbrev FLASH_KEY1 : Nat := 0x45670123
abbrev FLASH_KEY2 : Nat := 0xCDEF89AB

abbrev FLASH_PG : Nat := 1 <<< 0
abbrev FLASH_PER : Nat := 1 <<< 1
abbrev FLASH_MER : Nat := 1 <<< 2
abbrev FLASH_OPTPG : Nat := 1 <<< 4
abbrev FLASH_OPTER : Nat := 1 <<< 5
abbrev FLASH_STRT : Nat := 1 <<< 6
abbrev FLASH_LOCK : Nat := 1 <<< 7
abbrev FLASH_OPTWRE : Nat := 1 <<< 9

abbrev FLASH_BSY : Nat := 1 <<< 0
abbrev FLASH_PGERR : Nat := 1 <<< 2
abbrev FLASH_WRPRTERR : Nat := 1 <<< 4
abbrev FLASH_EOP : Nat := 1 <<< 5

abbrev FLASH_ERR : Nat := FLASH_PGERR ||| FLASH_WRPRTERR

/-! ## Registers and the machine -/

/-- The memory-mapped registers the driver writes. -/
inductive Reg
  | ACR | KEYR | OPTKEYR | SR | CR | AR | IWDG_KR | IWDG_PR | IWDG_RLR
  deriving DecidableEq, Repr

/-- One bus write: a 32-bit register write, or a half-word write `M16(adr) = v`. -/
inductive Access
  | w32 (r : Reg) (v : Nat)
  | w16 (adr : Nat) (v : Nat)
  deriving DecidableEq, Repr

/-- Independent watchdog register block. -/
structure IWDG_TypeDef where
  KR : Nat
  PR : Nat
  RLR : Nat
  SR : Nat
  deriving DecidableEq, Repr

/-- Flash controller register block. -/
structure FLASH_TypeDef where
  ACR : Nat
  KEYR : Nat
  OPTKEYR : Nat
  SR : Nat
  CR : Nat
  AR : Nat
  OBR : Nat
  WRPR : Nat
  deriving DecidableEq, Repr

/-- The two register blocks, the progress of the two key sequences, the number of
status-register reads made so far and the bus writes made so far (oldest first). -/
structure Machine where
  FLASH : FLASH_TypeDef
  IWDG : IWDG_TypeDef
  keySeq : Bool
  optKeySeq : Bool
  srReads : Nat
  trace : List Access
  deriving DecidableEq, Repr

/-- Effect of a 32-bit register write on the register blocks. -/
def store (r : Reg) (v : Nat) (m : Machine) : Machine :=
  match r with
  | Reg.ACR => { m with FLASH := { m.FLASH with ACR := v } }
  | Reg.KEYR =>
    if v = FLASH_KEY1 then
      { m with FLASH := { m.FLASH with KEYR := v }, keySeq := true }
    else if v = FLASH_KEY2 ∧ m.keySeq = true then
      { m with FLASH := { m.FLASH with KEYR := v, CR := m.FLASH.CR &&& not32 FLASH_LOCK },
               keySeq := false }
    else
      { m with FLASH := { m.FLASH with KEYR := v }, keySeq := false }
  | Reg.OPTKEYR =>
    if v = FLASH_KEY1 then
      { m with FLASH := { m.FLASH with OPTKEYR := v }, optKeySeq := true }
    else if v = FLASH_KEY2 ∧ m.optKeySeq = true then
      { m with FLASH := { m.FLASH with OPTKEYR := v, CR := m.FLASH.CR ||| FLASH_OPTWRE },
               optKeySeq := false }
    else
      { m with FLASH := { m.FLASH with OPTKEYR := v }, optKeySeq := false }
  | Reg.SR => { m with FLASH := { m.FLASH with SR := v } }
  | Reg.CR => { m with FLASH := { m.FLASH with CR := v } }
  | Reg.AR => { m with FLASH := { m.FLASH with AR := v } }
  | Reg.IWDG_KR => { m with IWDG := { m.IWDG with KR := v } }
  | Reg.IWDG_PR => { m with IWDG := { m.IWDG with PR := v } }
  | Reg.IWDG_RLR => { m with IWDG := { m.IWDG with RLR := v } }

/-- A 32-bit register write `reg = v`: recorded on the bus, then stored. -/
def wr (r : Reg) (v : Nat) (m : Machine) : Machine :=
  store r (u32 v) { m with trace := m.trace ++ [Access.w32 r (u32 v)] }

/-- A half-word write `M16(adr) = v`. -/
def wrM16 (adr : Nat) (v : Nat) (m : Machine) : Machine :=
  { m with trace := m.trace ++ [Access.w16 (u32 adr) (u16 v)] }

/-- A read of `FLASH->SR`: the hardware supplies the value. -/
def rdSR (sr : Nat → Nat) (m : Machine) : Nat × Machine :=
  (u32 (sr m.srReads), { m with srReads := m.srReads + 1 })

/-- Statement `sz = (sz + 1) & ~1;` of ProgramPage: the size adjusted for half-words.
The sum is an unsigned long; `~1` is the int -2, converted to 0xFFFFFFFE. -/
def adjustedSize (sz : Nat) : Nat := u32 (sz + 1) &&& not32 1

/-- Statement `sz -= 2;` on an unsigned long. -/
def sub2 (sz : Nat) : Nat := u32 (sz + 2 ^ 32 - 2)

/-- The half-word `*((u16 *)buf)`, little-endian. -/
def rd16 (buf : Nat → Nat) : Nat := buf 0 % 256 + 256 * (buf 1 % 256)

/-- Loop `while (FLASH->SR & FLASH_BSY) { IWDG->KR = 0xAAAA; }`.
The flag tells whether the loop was left. -/
def waitBusyIWDG (sr : Nat → Nat) : Nat → Machine → Machine × Bool
  | 0, m => (m, false)
  | fuel + 1, m =>
    if (rdSR sr m).1 &&& FLASH_BSY ≠ 0 then
      waitBusyIWDG sr fuel (wr Reg.IWDG_KR 0xAAAA (rdSR sr m).2)
    else
      ((rdSR sr m).2, true)

/-- Loop `while (FLASH->SR & FLASH_BSY);`. -/
def waitBusy (sr : Nat → Nat) : Nat → Machine → Machine × Bool
  | 0, m => (m, false)
  | fuel + 1, m =>
    if (rdSR sr m).1 &&& FLASH_BSY ≠ 0 then
      waitBusy sr fuel (rdSR sr m).2
    else
      ((rdSR sr m).2, true)

/-- Statement `FLASH->SR |= FLASH_ERR;`: one read, one write. -/
def resetErrorFlags (sr : Nat → Nat) (m : Machine) : Machine :=
  wr Reg.SR ((rdSR sr m).1 ||| FLASH_ERR) (rdSR sr m).2

/-- Statement `FLASH->CR |= bit;`. -/
def setCR (bit : Nat) (m : Machine) : Machine := wr Reg.CR (m.FLASH.CR ||| bit) m

/-- Statement `FLASH->CR &= ~bit;`. -/
def clrCR (bit : Nat) (m : Machine) : Machine := wr Reg.CR (m.FLASH.CR &&& not32 bit) m

/-! ## The driver built with FLASH_MEM -/

namespace FLASH_MEM

/-- Init (FlashPrg.c, FLASH_MEM). -/
def Init (sr : Nat → Nat) (_adr _clk _fnc : Nat) (m : Machine) : Machine × Int :=
  let m := wr Reg.KEYR FLASH_KEY1 m
  let m := wr Reg.KEYR FLASH_KEY2 m
  let m := wr Reg.ACR 0x00000000 m
  let m := resetErrorFlags sr m
  if m.FLASH.OBR &&& (1 <<< 8) = 0 then
    let m := wr Reg.IWDG_KR 0x5555 m
    let m := wr Reg.IWDG_PR 0x06 m
    let m := wr Reg.IWDG_RLR 4095 m
    (m, 0)
  else
    (m, 0)

/-- UnInit (FlashPrg.c, FLASH_MEM). -/
def UnInit (_fnc : Nat) (m : Machine) : Machine × Int :=
  let m := setCR FLASH_LOCK m
  (m, 0)

/-- EraseChip (FlashPrg.c, FLASH_MEM). -/
def EraseChip (sr : Nat → Nat) (fuel : Nat) (m : Machine) : Machine × Option Int :=
  let m := setCR FLASH_MER m
  let m := setCR FLASH_STRT m
  match waitBusyIWDG sr fuel m with
  | (m, false) => (m, none)
  | (m, true) =>
    let m := clrCR FLASH_MER m
    (m, some 0)

/-- EraseSector (FlashPrg.c, FLASH_MEM). -/
def EraseSector (sr : Nat → Nat) (fuel : Nat) (adr : Nat) (m : Machine) :
    Machine × Option Int :=
  let m := setCR FLASH_PER m
  let m := wr Reg.AR adr m
  let m := setCR FLASH_STRT m
  match waitBusyIWDG sr fuel m with
  | (m, false) => (m, none)
  | (m, true) =>
    let m := clrCR FLASH_PER m
    (m, some 0)

/-- The `while (sz)` loop of ProgramPage (FLASH_MEM); `spin` bounds each busy-wait. -/
def ProgramPage_loop (sr : Nat → Nat) (spin : Nat) :
    Nat → Nat → Nat → (Nat → Nat) → Machine → Machine × Option Int
  | 0, _, sz, _, m => if sz = 0 then (m, some 0) else (m, none)
  | fuel + 1, adr, sz, buf, m =>
    if sz = 0 then (m, some 0)
    else
      let m := setCR FLASH_PG m
      let m := wrM16 adr (rd16 buf) m
      match waitBusy sr spin m with
      | (m, false) => (m, none)
      | (m, true) =>
        let m := clrCR FLASH_PG m
        if (rdSR sr m).1 &&& FLASH_ERR ≠ 0 then
          let m := resetErrorFlags sr (rdSR sr m).2
          (m, some 1)
        else
          ProgramPage_loop sr spin fuel (u32 (adr + 2)) (sub2 sz)
            (fun i => buf (i + 2)) (rdSR sr m).2

/-- ProgramPage (FlashPrg.c, FLASH_MEM). -/
def ProgramPage (sr : Nat → Nat) (fuel : Nat) (adr sz : Nat) (buf : Nat → Nat)
    (m : Machine) : Machine × Option Int :=
  ProgramPage_loop sr fuel fuel adr (adjustedSize sz) buf m

end FLASH_MEM

/-! ## The driver built with FLASH_OPT -/

namespace FLASH_OPT

/-- Init (FlashPrg.c, FLASH_OPT). -/
def Init (sr : Nat → Nat) (_adr _clk _fnc : Nat) (m : Machine) : Machine × Int :=
  let m := wr Reg.KEYR FLASH_KEY1 m
  let m := wr Reg.KEYR FLASH_KEY2 m
  let m := wr Reg.OPTKEYR FLASH_KEY1 m
  let m := wr Reg.OPTKEYR FLASH_KEY2 m
  let m := wr Reg.ACR 0x00000000 m
  let m := resetErrorFlags sr m
  if m.FLASH.OBR &&& (1 <<< 8) = 0 then
    let m := wr Reg.IWDG_KR 0x5555 m
    let m := wr Reg.IWDG_PR 0x06 m
    let m := wr Reg.IWDG_RLR 4095 m
    (m, 0)
  else
    (m, 0)

/-- UnInit (FlashPrg.c, FLASH_OPT). -/
def UnInit (_fnc : Nat) (m : Machine) : Machine × Int :=
  let m := clrCR FLASH_OPTWRE m
  let m := setCR FLASH_LOCK m
  (m, 0)

/-- EraseChip (FlashPrg.c, FLASH_OPT). -/
def EraseChip (sr : Nat → Nat) (fuel : Nat) (m : Machine) : Machine × Option Int :=
  let m := resetErrorFlags sr m
  let m := setCR FLASH_OPTER m
  let m := setCR FLASH_STRT m
  match waitBusyIWDG sr fuel m with
  | (m, false) => (m, none)
  | (m, true) =>
    let m := clrCR FLASH_OPTER m
    let m := setCR FLASH_OPTPG m
    let m := wrM16 0x1FFFF800 RDPRT_KEY m
    match waitBusyIWDG sr fuel m with
    | (m, false) => (m, none)
    | (m, true) =>
      let m := clrCR FLASH_OPTPG m
      if (rdSR sr m).1 &&& FLASH_ERR ≠ 0 then
        let m := resetErrorFlags sr (rdSR sr m).2
        (m, some 1)
      else
        ((rdSR sr m).2, some 0)

/-- EraseSector (FlashPrg.c, FLASH_OPT). -/
def EraseSector (sr : Nat → Nat) (fuel : Nat) (_adr : Nat) (m : Machine) :
    Machine × Option Int :=
  let m := setCR FLASH_OPTER m
  let m := setCR FLASH_STRT m
  match waitBusyIWDG sr fuel m with
  | (m, false) => (m, none)
  | (m, true) =>
    let m := clrCR FLASH_OPTER m
    (m, some 0)

/-- BlankCheck (FlashPrg.c, FLASH_OPT). -/
def BlankCheck (_adr _sz _pat : Nat) : Int := 1

/-- The `while (sz)` loop of ProgramPage (FLASH_OPT); `spin` bounds each busy-wait. -/
def ProgramPage_loop (sr : Nat → Nat) (spin : Nat) :
    Nat → Nat → Nat → (Nat → Nat) → Machine → Machine × Option Int
  | 0, _, sz, _, m => if sz = 0 then (m, some 0) else (m, none)
  | fuel + 1, adr, sz, buf, m =>
    if sz = 0 then (m, some 0)
    else
      let m := setCR FLASH_OPTPG m
      let m := wrM16 adr (rd16 buf) m
      match waitBusyIWDG sr spin m with
      | (m, false) => (m, none)
      | (m, true) =>
        let m := clrCR FLASH_OPTPG m
        if (rdSR sr m).1 &&& FLASH_ERR ≠ 0 then
          let m := resetErrorFlags sr (rdSR sr m).2
          (m, some 1)
        else
          ProgramPage_loop sr spin fuel (u32 (adr + 2)) (sub2 sz)
            (fun i => buf (i + 2)) (rdSR sr m).2

/-- ProgramPage (FlashPrg.c, FLASH_OPT). -/
def ProgramPage (sr : Nat → Nat) (fuel : Nat) (adr sz : Nat) (buf : Nat → Nat)
    (m : Machine) : Machine × Option Int :=
  ProgramPage_loop sr fuel fuel adr (adjustedSize sz) buf m

end FLASH_OPT

/-! ## The device descriptors of FlashDev.c -/

/-- Modelled from the spec: SECTOR_END and the type of the sector entries are declared in
FlashOS.H, which is not among the sources.  The specification only says that the list ends
with a designated terminator, so the terminator is a value of its own here.  An entry
holds the two numbers FlashDev.c gives it, which its comments name `Sector Size` and
`Address of Sectors`. -/
inductive SectorItem
  | sector (szSector : Nat) (AddrSector : Nat)
  | SECTOR_END
  deriving DecidableEq, Repr

/-- Modelled from the spec: `struct FlashDevice` is declared in FlashOS.H, which is not
among the sources.  The record has one field per initialiser of FlashDev.c, in order, as
its comments name them: driver version, device name, device type, device start address,
device size in bytes, programming page size, reserved, initial content of erased memory,
program page timeout, erase sector timeout, sectors. -/
structure FlashDevice where
  Vers : Nat
  DevName : String
  DevType : Nat
  DevAdr : Nat
  szDev : Nat
  szPage : Nat
  Res : Nat
  valEmpty : Nat
  toProg : Nat
  toErase : Nat
  sectors : List SectorItem
  deriving Repr

/-- FlashDevice of FlashDev.c built with FLASH_MEM and STM32F3xx_256.  FLASH_DRV_VERS and
ONCHIP come from FlashOS.H and are parameters. -/
def FlashDevice_STM32F3xx_256 (FLASH_DRV_VERS ONCHIP : Nat) : FlashDevice :=
  { Vers := FLASH_DRV_VERS
    DevName := "STM32F3xx Flash"
    DevType := ONCHIP
    DevAdr := 0x08000000
    szDev := 0x00040000
    szPage := 1024
    Res := 0
    valEmpty := 0xFF
    toProg := 100
    toErase := 6000
    sectors := [SectorItem.sector 0x00800 0x000000, SectorItem.SECTOR_END] }

/-- FlashDevice of FlashDev.c built with FLASH_MEM and STM32F3xx_512. -/
def FlashDevice_STM32F3xx_512 (FLASH_DRV_VERS ONCHIP : Nat) : FlashDevice :=
  { Vers := FLASH_DRV_VERS
    DevName := "STM32F3xx 512KB Flash"
    DevType := ONCHIP
    DevAdr := 0x08000000
    szDev := 0x00080000
    szPage := 1024
    Res := 0
    valEmpty := 0xFF
    toProg := 100
    toErase := 6000
    sectors := [SectorItem.sector 0x00800 0x000000, SectorItem.SECTOR_END] }

/-- FlashDevice of FlashDev.c built with FLASH_OPT. -/
def FlashDevice_FLASH_OPT (FLASH_DRV_VERS ONCHIP : Nat) : FlashDevice :=
  { Vers := FLASH_DRV_VERS
    DevName := "STM32F3xx Flash Options"
    DevType := ONCHIP
    DevAdr := 0x1FFFF800
    szDev := 0x00000010
    szPage := 16
    Res := 0
    valEmpty := 0xFF
    toProg := 3000
    toErase := 3000
    sectors := [SectorItem.sector 0x0010 0x000000, SectorItem.SECTOR_END] }

/-- The sector table read as the specification words it: each entry is a (sector-size,
sector-count) pair, expanded into consecutive sectors (start, size) from base, up to the
terminator. -/
def expandCounted : Nat → List SectorItem → List (Nat × Nat)
  | _, [] => []
  | _, SectorItem.SECTOR_END :: _ => []
  | base, SectorItem.sector sz cnt :: rest =>
    (List.range cnt).map (fun k => (base + k * sz, sz)) ++ expandCounted (base + cnt * sz) rest

/-- Where the sectors of an entry stop: at the offset of the next entry, or at the end of
the device when the terminator follows. -/
def stopOffset (size : Nat) : List SectorItem → Nat
  | SectorItem.sector _ next :: _ => next
  | _ => size

/-- The sector table read as the source comments word it: each entry is a (sector size,
offset of the first sector of that size) pair; sectors of that size follow one another from
base + offset up to the next entry's offset, or to the end of the device for the last
entry.  Sectors are (start, size) pairs. -/
def expandAddressed (base size : Nat) : List SectorItem → List (Nat × Nat)
  | [] => []
  | SectorItem.SECTOR_END :: _ => []
  | SectorItem.sector sz off :: rest =>
    (List.range ((stopOffset size rest - off) / sz)).map (fun k => (base + off + k * sz, sz))
      ++ expandAddressed base size rest

/-- The sectors tile the range from a to b: the first starts at a, each next one starts where
the previous one ends, none is empty, and the last ends at b.  So there is no gap and no
overlap. -/
def tiles : Nat → Nat → List (Nat × Nat) → Prop
  | a, b, [] => a = b
  | a, b, s :: rest => s.1 = a ∧ 0 < s.2 ∧ tiles (a + s.2) b rest

/-- The sectors exactly cover the device: they tile its address range, so every address of
the range lies in a sector, every sector address lies in the range, and sectors do not
overlap. -/
def exactlyCovers (d : FlashDevice) (l : List (Nat × Nat)) : Prop :=
  tiles d.DevAdr (d.DevAdr + d.szDev) l
  ∧ (∀ x, (d.DevAdr ≤ x ∧ x < d.DevAdr + d.szDev) ↔ ∃ s, s ∈ l ∧ s.1 ≤ x ∧ x < s.1 + s.2)
  ∧ l.Pairwise (fun s t => s.1 + s.2 ≤ t.1)

/-! ## Vocabulary of the statements

Nothing below is taken from the source: these definitions name what the theorems talk
about (status behaviours, parts of the bus record, the machines and writes a run is
expected to produce) and the concrete inputs of the worked examples. -/

/-! ### Status behaviours -/

/-- Polling from read index i sees BSY set exactly n times and then clear. -/
def busyFor (sr : Nat → Nat) (i n : Nat) : Prop :=
  (∀ t, t < n → u32 (sr (i + t)) &&& FLASH_BSY ≠ 0) ∧ u32 (sr (i + n)) &&& FLASH_BSY = 0

instance decidableBusyFor (sr : Nat → Nat) (i n : Nat) : Decidable (busyFor sr i n) := by
  unfold busyFor
  infer_instance

/-- Starting at read index i, the successive half-words see ps[0], ps[1], ... polls
with BSY set before BSY reads clear, and the status read after each wait shows
neither PGERR nor WRPRTERR. -/
def cleanPolls (sr : Nat → Nat) : List Nat → Nat → Prop
  | [], _ => True
  | p :: ps, i =>
    busyFor sr i p ∧ u32 (sr (i + p + 1)) &&& FLASH_ERR = 0 ∧ cleanPolls sr ps (i + p + 2)

/-- Whether cleanPolls holds can be computed. -/
def decidableCleanPolls (sr : Nat → Nat) : (ps : List Nat) → (i : Nat) →
    Decidable (cleanPolls sr ps i)
  | [], _ => isTrue trivial
  | p :: ps, i =>
    match decidableBusyFor sr i p, Nat.decEq (u32 (sr (i + p + 1)) &&& FLASH_ERR) 0,
        decidableCleanPolls sr ps (i + p + 2) with
    | isTrue h1, isTrue h2, isTrue h3 => isTrue ⟨h1, h2, h3⟩
    | isFalse h1, _, _ => isFalse (fun h => h1 h.1)
    | _, isFalse h2, _ => isFalse (fun h => h2 h.2.1)
    | _, _, isFalse h3 => isFalse (fun h => h3 h.2.2)

instance (sr : Nat → Nat) (ps : List Nat) (i : Nat) : Decidable (cleanPolls sr ps i) :=
  decidableCleanPolls sr ps i

/-- Number of status reads made by half-words that see the polls ps and no error. -/
def readsOf (ps : List Nat) : Nat := (ps.map (fun p => p + 2)).sum

/-- The status register behaves as a register over two consecutive reads at index i: the
second read differs from the first at most in the error flags (as when the only event in
between is the driver writing the error flags back, whether the cell then keeps them or
clears them). -/
def statusSettled (sr : Nat → Nat) (i : Nat) : Prop :=
  u32 (sr (i + 1)) ||| FLASH_ERR = u32 (sr i) ||| FLASH_ERR

instance (sr : Nat → Nat) (i : Nat) : Decidable (statusSettled sr i) := by
  unfold statusSettled
  infer_instance

/-! ### Reading the bus record -/

/-- Bus writes made between machine m and the later machine m1. -/
def newWrites (m m1 : Machine) : List Access := m1.trace.drop m.trace.length

/-- Number of watchdog reloads (0xAAAA written to the IWDG key register) in a record. -/
def reloads (t : List Access) : Nat := t.count (Access.w32 Reg.IWDG_KR 0xAAAA)

/-- Half-word writes. -/
def isHalfWord : Access → Bool
  | Access.w16 _ _ => true
  | _ => false

/-- Writes to the IWDG key register. -/
def isKick : Access → Bool
  | Access.w32 Reg.IWDG_KR _ => true
  | _ => false

/-- The half-word writes of a record, in order. -/
def halfWords (t : List Access) : List Access := t.filter isHalfWord

/-- The half-word writes and the watchdog key writes of a record, in order. -/
def wdView (t : List Access) : List Access := t.filter (fun a => isHalfWord a || isKick a)

/-- The values written to register r in a record, in order. -/
def writesTo (r : Reg) (t : List Access) : List Nat :=
  t.filterMap (fun a => match a with
    | Access.w32 q v => if q = r then some v else none
    | Access.w16 _ _ => none)

/-! ### Expected machines and writes -/

/-- Machine after n polls that read BSY set, each followed by a watchdog reload. -/
def kicked (n : Nat) (m : Machine) : Machine :=
  { m with srReads := m.srReads + n,
           trace := m.trace ++ List.replicate n (Access.w32 Reg.IWDG_KR 0xAAAA),
           IWDG := if n = 0 then m.IWDG else { m.IWDG with KR := 0xAAAA } }

/-- Machine after n status reads. -/
def polled (n : Nat) (m : Machine) : Machine := { m with srReads := m.srReads + n }

/-- Machine after a busy-wait that saw p polls with BSY set. -/
def waited (wd : Bool) (p : Nat) (m : Machine) : Machine :=
  polled 1 (if wd then kicked p m else polled p m)

/-- The buffer pointer advanced by 2. -/
def shift2 (buf : Nat → Nat) : Nat → Nat := fun i => buf (i + 2)

/-- Machine after one half-word programmed without error. -/
def stepOK (bit : Nat) (wd : Bool) (p adr : Nat) (buf : Nat → Nat) (m : Machine) : Machine :=
  polled 1 (clrCR bit (waited wd p (wrM16 adr (rd16 buf) (setCR bit m))))

/-- Machine after the half-words with polls ps programmed without error. -/
def okRun (bit : Nat) (wd : Bool) : Nat → (Nat → Nat) → List Nat → Machine → Machine
  | _, _, [], m => m
  | adr, buf, p :: ps, m =>
    okRun bit wd (u32 (adr + 2)) (shift2 buf) ps (stepOK bit wd p adr buf m)

/-- Machine after the half-words with polls ps programmed without error and the next
one, after p polls, found in error. -/
def errRun (sr : Nat → Nat) (bit : Nat) (wd : Bool) :
    Nat → (Nat → Nat) → List Nat → Nat → Machine → Machine
  | adr, buf, [], p, m =>
    resetErrorFlags sr (polled 1 (clrCR bit (waited wd p (wrM16 adr (rd16 buf) (setCR bit m)))))
  | adr, buf, q :: ps, p, m =>
    errRun sr bit wd (u32 (adr + 2)) (shift2 buf) ps p (stepOK bit wd q adr buf m)

/-- The half-word writes that program n half-words of buf at adr: the k-th goes to
the unsigned long adr + 2k and carries buf[2k] + 256 * buf[2k+1]. -/
def pageWrites (adr : Nat) (buf : Nat → Nat) (n : Nat) : List Access :=
  (List.range n).map (fun k =>
    Access.w16 (u32 (adr + 2 * k)) (buf (2 * k) % 256 + 256 * (buf (2 * k + 1) % 256)))

/-- The half-word writes as the specification words them: the k-th goes to address
adr + 2k (a natural number) and carries buf[2k] + 256 * buf[2k+1]. -/
def specPageWrites (adr : Nat) (buf : Nat → Nat) (n : Nat) : List Access :=
  (List.range n).map (fun k =>
    Access.w16 (adr + 2 * k) (buf (2 * k) % 256 + 256 * (buf (2 * k + 1) % 256)))

/-- The half-word writes and watchdog reloads of a run that programs the half-words
with polls ps: each half-word write is followed by one reload per poll that read BSY
set when wd holds, and by none otherwise. -/
def wdWrites (wd : Bool) : Nat → (Nat → Nat) → List Nat → List Access
  | _, _, [] => []
  | adr, buf, p :: ps =>
    Access.w16 (u32 adr) (rd16 buf)
      :: ((if wd then List.replicate p (Access.w32 Reg.IWDG_KR 0xAAAA) else [])
          ++ wdWrites wd (u32 (adr + 2)) (shift2 buf) ps)

/-- The bus writes of one half-word programmed without error, from control value cr. -/
def stepWrites (bit : Nat) (wd : Bool) (p adr : Nat) (buf : Nat → Nat) (cr : Nat) :
    List Access :=
  [Access.w32 Reg.CR (u32 (cr ||| bit)), Access.w16 (u32 adr) (rd16 buf)]
    ++ (if wd then List.replicate p (Access.w32 Reg.IWDG_KR 0xAAAA) else [])
    ++ [Access.w32 Reg.CR (u32 (u32 (cr ||| bit) &&& not32 bit))]

/-- Option-byte EraseChip up to the statement that clears OPTPG, when the erase wait saw
n1 busy polls and the wait after the read-protect key saw n2. -/
def afterReprotect (sr : Nat → Nat) (n1 n2 : Nat) (m : Machine) : Machine :=
  clrCR FLASH_OPTPG (polled 1 (kicked n2 (wrM16 0x1FFFF800 RDPRT_KEY
    (setCR FLASH_OPTPG (clrCR FLASH_OPTER (polled 1 (kicked n1
      (setCR FLASH_STRT (setCR FLASH_OPTER (resetErrorFlags sr m))))))))))

/-- Bus writes of option-byte EraseChip up to the read-protect key, from control value cr,
when the first status read returned s and the erase wait saw n1 busy polls: the error
flags are reset, OPTER and STRT are set, the watchdog is reloaded n1 times, OPTER is
cleared. -/
def optEraseWrites (s cr n1 : Nat) : List Access :=
  [Access.w32 Reg.SR (u32 (s ||| FLASH_ERR)),
   Access.w32 Reg.CR (u32 (cr ||| FLASH_OPTER)),
   Access.w32 Reg.CR (u32 (u32 (cr ||| FLASH_OPTER) ||| FLASH_STRT))]
  ++ List.replicate n1 (Access.w32 Reg.IWDG_KR 0xAAAA)
  ++ [Access.w32 Reg.CR (u32 (u32 (u32 (cr ||| FLASH_OPTER) ||| FLASH_STRT) &&& not32 FLASH_OPTER))]

/-- Control value left by the erase phase of option-byte EraseChip. -/
def optErasedCR (cr : Nat) : Nat :=
  u32 (u32 (u32 (cr ||| FLASH_OPTER) ||| FLASH_STRT) &&& not32 FLASH_OPTER)

/-- The register state of a machine: both register blocks and the progress of the two
key sequences (the read count and the bus record are bookkeeping, not registers). -/
def regs (m : Machine) : FLASH_TypeDef × IWDG_TypeDef × Bool × Bool :=
  (m.FLASH, m.IWDG, m.keySeq, m.optKeySeq)

/-! ### The two ProgramPage loops as one -/

/-- The common shape of the two ProgramPage loops: bit is the programming-enable bit,
wd tells whether the busy-wait reloads the watchdog. -/
def programLoop (sr : Nat → Nat) (bit : Nat) (wd : Bool) (spin : Nat) :
    Nat → Nat → Nat → (Nat → Nat) → Machine → Machine × Option Int
  | 0, _, sz, _, m => if sz = 0 then (m, some 0) else (m, none)
  | fuel + 1, adr, sz, buf, m =>
    if sz = 0 then (m, some 0)
    else
      match (if wd then waitBusyIWDG sr spin (wrM16 adr (rd16 buf) (setCR bit m))
             else waitBusy sr spin (wrM16 adr (rd16 buf) (setCR bit m))) with
      | (m, false) => (m, none)
      | (m, true) =>
        if (rdSR sr (clrCR bit m)).1 &&& FLASH_ERR ≠ 0 then
          (resetErrorFlags sr (rdSR sr (clrCR bit m)).2, some 1)
        else
          programLoop sr bit wd spin fuel (u32 (adr + 2)) (sub2 sz)
            (fun i => buf (i + 2)) (rdSR sr (clrCR bit m)).2

/-! ### Keeping the lock -/

/-- A bus write that keeps the controller locked: not a write to KEYR or OPTKEYR, and, if
a write to CR, one whose value has LOCK set. -/
def lockKept : Access → Prop
  | Access.w32 Reg.KEYR _ => False
  | Access.w32 Reg.OPTKEYR _ => False
  | Access.w32 Reg.CR v => v &&& FLASH_LOCK = FLASH_LOCK
  | _ => True

/-- The run from m0 to the result r kept the controller locked: every bus write it made
keeps the lock, and LOCK is set in CR where the run stands. -/
def lockHeld (m0 : Machine) (r : Machine × Option Int) : Prop :=
  (∀ a, a ∈ newWrites m0 r.1 → lockKept a) ∧ r.1.FLASH.CR &&& FLASH_LOCK = FLASH_LOCK

/-- Every erase and program function, in both builds, keeps the controller locked when
started on m0. -/
def lockHeldByAll (sr : Nat → Nat) (fuel adr sz : Nat) (buf : Nat → Nat) (m0 : Machine) : Prop :=
  lockHeld m0 (FLASH_MEM.EraseChip sr fuel m0)
  ∧ lockHeld m0 (FLASH_MEM.EraseSector sr fuel adr m0)
  ∧ lockHeld m0 (FLASH_MEM.ProgramPage sr fuel adr sz buf m0)
  ∧ lockHeld m0 (FLASH_OPT.EraseChip sr fuel m0)
  ∧ lockHeld m0 (FLASH_OPT.EraseSector sr fuel adr m0)
  ∧ lockHeld m0 (FLASH_OPT.ProgramPage sr fuel adr sz buf m0)

/-- The machine m continues m0 with bus writes that all satisfy P. -/
def Ext (P : Access → Prop) (m0 m : Machine) : Prop :=
  ∃ t, m.trace = m0.trace ++ t ∧ ∀ a, a ∈ t → P a

/-! ### Concrete inputs -/

/-- The buffer holding the given bytes. -/
def bufOf (bytes : List Nat) : Nat → Nat := fun i => bytes.getD i 0

/-- The controller after reset: locked, everything else zero; nothing on the bus yet. -/
def resetMachine : Machine :=
  { FLASH := { ACR := 0, KEYR := 0, OPTKEYR := 0, SR := 0, CR := FLASH_LOCK, AR := 0,
               OBR := 0, WRPR := 0 },
    IWDG := { KR := 0, PR := 0, RLR := 0, SR := 0 },
    keySeq := false, optKeySeq := false, srReads := 0, trace := [] }

/-- Status function of hardware that is never busy and reports PGERR at read 3 only. -/
def errAtThird : Nat → Nat := fun i => if i = 3 then 4 else 0

/-- Status function of hardware that reads BSY set twice, then clear, and reports
WRPRTERR from read 4 on. -/
def busyThenProtected : Nat → Nat := fun i => if i < 2 then 1 else if i < 4 then 0 else 16

/-- Status function of hardware that reads BSY set twice, then clear, and shows PGERR and
WRPRTERR at every read. -/
def alwaysInError : Nat → Nat := fun i => if i < 2 then 0x15 else 0x14

/-- Status function of hardware whose BSY flag never clears. -/
def stuckBusy : Nat → Nat := fun _ => 1

/-- Status function of hardware that reads BSY set twice before every clear reading and
never shows an error: reads 0, 1 busy, read 2 clear, read 3 the error check, and so on
with period 4. -/
def busyTwice : Nat → Nat := fun i => if i % 4 < 2 then 1 else 0

/-! ## Busy-wait loops -/

theorem kicked_succ (sr : Nat → Nat) (n : Nat) (m : Machine) :
    kicked n (wr Reg.IWDG_KR 0xAAAA (rdSR sr m).2) = kicked (n + 1) m := by
  cases m
  simp [kicked, wr, store, rdSR, u32, List.replicate_succ]
  omega

theorem waitBusyIWDG_spin (sr : Nat → Nat) (fuel : Nat) (m : Machine)
    (h : ∀ t, t < fuel → u32 (sr (m.srReads + t)) &&& FLASH_BSY ≠ 0) :
    waitBusyIWDG sr fuel m = (kicked fuel m, false) := by
  induction fuel generalizing m with
  | zero => cases m; simp [waitBusyIWDG, kicked]
  | succ k ih =>
    have h0 := h 0 (by omega)
    simp only [Nat.add_zero] at h0
    rw [waitBusyIWDG, if_pos (by simpa [rdSR] using h0), ih, kicked_succ]
    intro t ht
    have := h (t + 1) (by omega)
    simpa [wr, store, rdSR, Nat.add_assoc, Nat.add_comm 1 t] using this

theorem waitBusyIWDG_done (sr : Nat → Nat) (n fuel : Nat) (m : Machine)
    (h : busyFor sr m.srReads n) (hf : n < fuel) :
    waitBusyIWDG sr fuel m = (polled 1 (kicked n m), true) := by
  induction n generalizing m fuel with
  | zero =>
    obtain ⟨k, rfl⟩ : ∃ k, fuel = k + 1 := ⟨fuel - 1, by omega⟩
    have h0 := h.2
    simp only [Nat.add_zero] at h0
    rw [waitBusyIWDG, if_neg (by simpa [rdSR] using h0)]
    cases m
    simp [kicked, polled, rdSR]
  | succ n ih =>
    obtain ⟨k, rfl⟩ : ∃ k, fuel = k + 1 := ⟨fuel - 1, by omega⟩
    have h0 := h.1 0 (by omega)
    simp only [Nat.add_zero] at h0
    rw [waitBusyIWDG, if_pos (by simpa [rdSR] using h0), ih _ _ _ (by omega), kicked_succ]
    refine ⟨fun t ht => ?_, ?_⟩
    · have := h.1 (t + 1) (by omega)
      simpa [wr, store, rdSR, Nat.add_assoc, Nat.add_comm 1 t] using this
    · have := h.2
      simpa [wr, store, rdSR, Nat.add_assoc, Nat.add_comm 1 n] using this

theorem waitBusy_spin (sr : Nat → Nat) (fuel : Nat) (m : Machine)
    (h : ∀ t, t < fuel → u32 (sr (m.srReads + t)) &&& FLASH_BSY ≠ 0) :
    waitBusy sr fuel m = (polled fuel m, false) := by
  induction fuel generalizing m with
  | zero => cases m; simp [waitBusy, polled]
  | succ k ih =>
    have h0 := h 0 (by omega)
    simp only [Nat.add_zero] at h0
    rw [waitBusy, if_pos (by simpa [rdSR] using h0), ih]
    · cases m; simp [polled, rdSR]; omega
    · intro t ht
      have := h (t + 1) (by omega)
      simpa [rdSR, Nat.add_assoc, Nat.add_comm 1 t] using this

theorem waitBusy_done (sr : Nat → Nat) (n fuel : Nat) (m : Machine)
    (h : busyFor sr m.srReads n) (hf : n < fuel) :
    waitBusy sr fuel m = (polled (n + 1) m, true) := by
  induction n generalizing m fuel with
  | zero =>
    obtain ⟨k, rfl⟩ : ∃ k, fuel = k + 1 := ⟨fuel - 1, by omega⟩
    have h0 := h.2
    simp only [Nat.add_zero] at h0
    rw [waitBusy, if_neg (by simpa [rdSR] using h0)]
    cases m
    simp [polled, rdSR]
  | succ n ih =>
    obtain ⟨k, rfl⟩ : ∃ k, fuel = k + 1 := ⟨fuel - 1, by omega⟩
    have h0 := h.1 0 (by omega)
    simp only [Nat.add_zero] at h0
    rw [waitBusy, if_pos (by simpa [rdSR] using h0), ih _ _ _ (by omega)]
    · cases m; simp [polled, rdSR]; omega
    · refine ⟨fun t ht => ?_, ?_⟩
      · have := h.1 (t + 1) (by omega)
        simpa [rdSR, Nat.add_assoc, Nat.add_comm 1 t] using this
      · have := h.2
        simpa [rdSR, Nat.add_assoc, Nat.add_comm 1 n] using this

/-! ## Bit facts -/

theorem u32_and (x k : Nat) (hk : k < 2 ^ 32) : u32 x &&& k = x &&& k := by
  have h1 : u32 x = x &&& (2 ^ 32 - 1) := by
    rw [Nat.and_pow_two_sub_one_eq_mod]; rfl
  have h2 : (2 ^ 32 - 1) &&& k = k := by
    rw [Nat.and_comm, Nat.and_pow_two_sub_one_eq_mod, Nat.mod_eq_of_lt hk]
  rw [h1, Nat.and_assoc, h2]

theorem test_after_set (x b k : Nat) (hk : k < 2 ^ 32) :
    u32 (x ||| b) &&& k = (x &&& k) ||| (b &&& k) := by
  rw [u32_and _ _ hk, Nat.and_distrib_right]

theorem test_after_clr (x b k : Nat) (hk : k < 2 ^ 32) :
    u32 (x &&& not32 b) &&& k = x &&& (not32 b &&& k) := by
  rw [u32_and _ _ hk, Nat.and_assoc]

@[simp] theorem wr_srReads (r : Reg) (v : Nat) (m : Machine) : (wr r v m).srReads = m.srReads := by
  cases r <;> simp [wr, store] <;> split_ifs <;> rfl

@[simp] theorem wr_trace (r : Reg) (v : Nat) (m : Machine) :
    (wr r v m).trace = m.trace ++ [Access.w32 r (u32 v)] := by
  cases r <;> simp [wr, store] <;> split_ifs <;> rfl

@[simp] theorem setCR_srReads (b : Nat) (m : Machine) : (setCR b m).srReads = m.srReads := by
  simp [setCR]

@[simp] theorem clrCR_srReads (b : Nat) (m : Machine) : (clrCR b m).srReads = m.srReads := by
  simp [clrCR]

@[simp] theorem setCR_trace (b : Nat) (m : Machine) :
    (setCR b m).trace = m.trace ++ [Access.w32 Reg.CR (u32 (m.FLASH.CR ||| b))] := by
  simp [setCR]

@[simp] theorem clrCR_trace (b : Nat) (m : Machine) :
    (clrCR b m).trace = m.trace ++ [Access.w32 Reg.CR (u32 (m.FLASH.CR &&& not32 b))] := by
  simp [clrCR]

@[simp] theorem setCR_CR (b : Nat) (m : Machine) :
    (setCR b m).FLASH.CR = u32 (m.FLASH.CR ||| b) := by
  simp [setCR, wr, store]

@[simp] theorem clrCR_CR (b : Nat) (m : Machine) :
    (clrCR b m).FLASH.CR = u32 (m.FLASH.CR &&& not32 b) := by
  simp [clrCR, wr, store]

@[simp] theorem wrM16_srReads (a v : Nat) (m : Machine) : (wrM16 a v m).srReads = m.srReads := rfl

@[simp] theorem wrM16_trace (a v : Nat) (m : Machine) :
    (wrM16 a v m).trace = m.trace ++ [Access.w16 (u32 a) (u16 v)] := rfl

@[simp] theorem wrM16_FLASH (a v : Nat) (m : Machine) : (wrM16 a v m).FLASH = m.FLASH := rfl

@[simp] theorem kicked_srReads (n : Nat) (m : Machine) : (kicked n m).srReads = m.srReads + n := rfl

@[simp] theorem kicked_trace (n : Nat) (m : Machine) :
    (kicked n m).trace = m.trace ++ List.replicate n (Access.w32 Reg.IWDG_KR 0xAAAA) := rfl

@[simp] theorem kicked_FLASH (n : Nat) (m : Machine) : (kicked n m).FLASH = m.FLASH := rfl

@[simp] theorem polled_srReads (n : Nat) (m : Machine) : (polled n m).srReads = m.srReads + n := rfl

@[simp] theorem polled_trace (n : Nat) (m : Machine) : (polled n m).trace = m.trace := rfl

@[simp] theorem polled_FLASH (n : Nat) (m : Machine) : (polled n m).FLASH = m.FLASH := rfl

@[simp] theorem rdSR_fst (sr : Nat → Nat) (m : Machine) : (rdSR sr m).1 = u32 (sr m.srReads) := rfl

@[simp] theorem rdSR_snd (sr : Nat → Nat) (m : Machine) : (rdSR sr m).2 = polled 1 m := rfl

theorem newWrites_eq (m m1 : Machine) (t : List Access) (h : m1.trace = m.trace ++ t) :
    newWrites m m1 = t := by
  simp [newWrites, h]

/-! ## Runs of the erase functions -/

theorem MEM_EraseChip_run (sr : Nat → Nat) (m : Machine) (n fuel : Nat)
    (h : busyFor sr m.srReads n) (hf : n < fuel) :
    FLASH_MEM.EraseChip sr fuel m =
      (clrCR FLASH_MER (polled 1 (kicked n (setCR FLASH_STRT (setCR FLASH_MER m)))), some 0) := by
  have h1 : busyFor sr (setCR FLASH_STRT (setCR FLASH_MER m)).srReads n := by simpa using h
  simp only [FLASH_MEM.EraseChip, waitBusyIWDG_done sr n fuel _ h1 hf]

theorem MEM_EraseSector_run (sr : Nat → Nat) (m : Machine) (adr n fuel : Nat)
    (h : busyFor sr m.srReads n) (hf : n < fuel) :
    FLASH_MEM.EraseSector sr fuel adr m =
      (clrCR FLASH_PER (polled 1 (kicked n
        (setCR FLASH_STRT (wr Reg.AR adr (setCR FLASH_PER m))))), some 0) := by
  have h1 : busyFor sr (setCR FLASH_STRT (wr Reg.AR adr (setCR FLASH_PER m))).srReads n := by
    simpa using h
  simp only [FLASH_MEM.EraseSector, waitBusyIWDG_done sr n fuel _ h1 hf]

theorem OPT_EraseSector_run (sr : Nat → Nat) (m : Machine) (adr n fuel : Nat)
    (h : busyFor sr m.srReads n) (hf : n < fuel) :
    FLASH_OPT.EraseSector sr fuel adr m =
      (clrCR FLASH_OPTER (polled 1 (kicked n (setCR FLASH_STRT (setCR FLASH_OPTER m)))),
        some 0) := by
  have h1 : busyFor sr (setCR FLASH_STRT (setCR FLASH_OPTER m)).srReads n := by simpa using h
  simp only [FLASH_OPT.EraseSector, waitBusyIWDG_done sr n fuel _ h1 hf]

/-! ## The ProgramPage loops -/

theorem MEM_loop_eq (sr : Nat → Nat) (spin fuel adr sz : Nat) (buf : Nat → Nat) (m : Machine) :
    FLASH_MEM.ProgramPage_loop sr spin fuel adr sz buf m
      = programLoop sr FLASH_PG false spin fuel adr sz buf m := by
  induction fuel generalizing adr sz buf m with
  | zero => simp [FLASH_MEM.ProgramPage_loop, programLoop]
  | succ k ih =>
    simp only [FLASH_MEM.ProgramPage_loop, programLoop, Bool.false_eq_true, if_false]
    split_ifs with h1
    · rfl
    · rcases waitBusy sr spin (wrM16 adr (rd16 buf) (setCR FLASH_PG m)) with ⟨m1, b⟩
      cases b
      · rfl
      · simp only []
        split_ifs with h2
        · rfl
        · exact ih _ _ _ _

theorem OPT_loop_eq (sr : Nat → Nat) (spin fuel adr sz : Nat) (buf : Nat → Nat) (m : Machine) :
    FLASH_OPT.ProgramPage_loop sr spin fuel adr sz buf m
      = programLoop sr FLASH_OPTPG true spin fuel adr sz buf m := by
  induction fuel generalizing adr sz buf m with
  | zero => simp [FLASH_OPT.ProgramPage_loop, programLoop]
  | succ k ih =>
    simp only [FLASH_OPT.ProgramPage_loop, programLoop, if_true]
    split_ifs with h1
    · rfl
    · rcases waitBusyIWDG sr spin (wrM16 adr (rd16 buf) (setCR FLASH_OPTPG m)) with ⟨m1, b⟩
      cases b
      · rfl
      · simp only []
        split_ifs with h2
        · rfl
        · exact ih _ _ _ _

theorem polled_polled (a b : Nat) (m : Machine) : polled a (polled b m) = polled (b + a) m := by
  cases m; simp [polled, Nat.add_assoc]

theorem wait_done (sr : Nat → Nat) (wd : Bool) (p spin : Nat) (m : Machine)
    (h : busyFor sr m.srReads p) (hf : p < spin) :
    (if wd then waitBusyIWDG sr spin m else waitBusy sr spin m) = (waited wd p m, true) := by
  cases wd
  · simp [waited, waitBusy_done sr p spin m h hf, polled_polled]
  · simp [waited, waitBusyIWDG_done sr p spin m h hf]

theorem waitBusyIWDG_inv (sr : Nat → Nat) (spin : Nat) (m m1 : Machine)
    (h : waitBusyIWDG sr spin m = (m1, true)) :
    ∃ p, p < spin ∧ busyFor sr m.srReads p := by
  induction spin generalizing m with
  | zero => simp [waitBusyIWDG] at h
  | succ k ih =>
    rw [waitBusyIWDG] at h
    split_ifs at h with hb
    · obtain ⟨p, hp, hbf⟩ := ih _ h
      refine ⟨p + 1, by omega, fun t ht => ?_, ?_⟩
      · rcases Nat.eq_zero_or_pos t with rfl | hpos
        · simpa using hb
        · have := hbf.1 (t - 1) (by omega)
          simp only [wr_srReads, rdSR_snd, polled_srReads] at this
          rwa [show m.srReads + 1 + (t - 1) = m.srReads + t by omega] at this
      · have := hbf.2
        simp only [wr_srReads, rdSR_snd, polled_srReads] at this
        rwa [show m.srReads + 1 + p = m.srReads + (p + 1) by omega] at this
    · refine ⟨0, by omega, fun t ht => by omega, ?_⟩
      simpa using hb

theorem waitBusy_inv (sr : Nat → Nat) (spin : Nat) (m m1 : Machine)
    (h : waitBusy sr spin m = (m1, true)) :
    ∃ p, p < spin ∧ busyFor sr m.srReads p := by
  induction spin generalizing m with
  | zero => simp [waitBusy] at h
  | succ k ih =>
    rw [waitBusy] at h
    split_ifs at h with hb
    · obtain ⟨p, hp, hbf⟩ := ih _ h
      refine ⟨p + 1, by omega, fun t ht => ?_, ?_⟩
      · rcases Nat.eq_zero_or_pos t with rfl | hpos
        · simpa using hb
        · have := hbf.1 (t - 1) (by omega)
          simp only [wr_srReads, rdSR_snd, polled_srReads] at this
          rwa [show m.srReads + 1 + (t - 1) = m.srReads + t by omega] at this
      · have := hbf.2
        simp only [wr_srReads, rdSR_snd, polled_srReads] at this
        rwa [show m.srReads + 1 + p = m.srReads + (p + 1) by omega] at this
    · refine ⟨0, by omega, fun t ht => by omega, ?_⟩
      simpa using hb

theorem wait_inv (sr : Nat → Nat) (wd : Bool) (spin : Nat) (m m1 : Machine)
    (h : (if wd then waitBusyIWDG sr spin m else waitBusy sr spin m) = (m1, true)) :
    ∃ p, p < spin ∧ busyFor sr m.srReads p ∧ m1 = waited wd p m := by
  have hp : ∃ p, p < spin ∧ busyFor sr m.srReads p := by
    cases wd
    · exact waitBusy_inv sr spin m m1 (by simpa using h)
    · exact waitBusyIWDG_inv sr spin m m1 (by simpa using h)
  obtain ⟨p, hp, hb⟩ := hp
  refine ⟨p, hp, hb, ?_⟩
  rw [wait_done sr wd p spin m hb hp] at h
  exact (Prod.mk.inj h).1.symm

@[simp] theorem waited_srReads (wd : Bool) (p : Nat) (m : Machine) :
    (waited wd p m).srReads = m.srReads + p + 1 := by
  cases wd <;> simp [waited]

@[simp] theorem waited_FLASH (wd : Bool) (p : Nat) (m : Machine) :
    (waited wd p m).FLASH = m.FLASH := by
  cases wd <;> simp [waited]

@[simp] theorem waited_trace (wd : Bool) (p : Nat) (m : Machine) :
    (waited wd p m).trace =
      m.trace ++ (if wd then List.replicate p (Access.w32 Reg.IWDG_KR 0xAAAA) else []) := by
  cases wd <;> simp [waited]

@[simp] theorem stepOK_srReads (bit : Nat) (wd : Bool) (p adr : Nat) (buf : Nat → Nat)
    (m : Machine) : (stepOK bit wd p adr buf m).srReads = m.srReads + p + 2 := by
  simp [stepOK]

theorem sub2_even (n sz : Nat) (h : sz = 2 * (n + 1)) (hlt : sz < 2 ^ 32) : sub2 sz = 2 * n := by
  subst h
  simp only [sub2, u32] at *
  omega

theorem programLoop_zero (sr : Nat → Nat) (bit : Nat) (wd : Bool) (spin fuel adr : Nat)
    (buf : Nat → Nat) (m : Machine) :
    programLoop sr bit wd spin fuel adr 0 buf m = (m, some 0) := by
  cases fuel <;> simp [programLoop]

theorem programLoop_ok (sr : Nat → Nat) (bit : Nat) (wd : Bool) (spin : Nat) (ps : List Nat) :
    ∀ (fuel adr sz : Nat) (buf : Nat → Nat) (m : Machine),
      cleanPolls sr ps m.srReads → sz = 2 * ps.length → sz < 2 ^ 32 →
      (∀ p, p ∈ ps → p < spin) → ps.length ≤ fuel →
      programLoop sr bit wd spin fuel adr sz buf m = (okRun bit wd adr buf ps m, some 0) := by
  induction ps with
  | nil =>
    intro fuel adr sz buf m _ hsz _ _ _
    simp at hsz
    subst hsz
    rw [programLoop_zero]
    rfl
  | cons p ps ih =>
    intro fuel adr sz buf m hc hsz hlt hspin hfuel
    obtain ⟨k, rfl⟩ : ∃ k, fuel = k + 1 := ⟨fuel - 1, by simp at hfuel; omega⟩
    obtain ⟨hb, he, hrest⟩ := hc
    have hsz0 : sz ≠ 0 := by simp at hsz; omega
    have hb1 : busyFor sr (wrM16 adr (rd16 buf) (setCR bit m)).srReads p := by simpa using hb
    rw [programLoop, if_neg hsz0, wait_done sr wd p spin _ hb1 (hspin p (by simp))]
    have he1 : ¬ ((rdSR sr (clrCR bit (waited wd p (wrM16 adr (rd16 buf) (setCR bit m))))).1
        &&& FLASH_ERR ≠ 0) := by
      simp only [rdSR_fst, clrCR_srReads, waited_srReads, wrM16_srReads, setCR_srReads]
      simpa using he
    simp only []
    rw [if_neg he1]
    have hlen : sz = 2 * (ps.length + 1) := by simpa using hsz
    have hs : sub2 sz = 2 * ps.length := sub2_even _ _ hlen hlt
    rw [ih k (u32 (adr + 2)) (sub2 sz) (fun i => buf (i + 2)) _ ?_ hs (by omega)
      (fun q hq => hspin q (by simp [hq])) (by simp at hfuel; omega)]
    · rfl
    · simpa [Nat.add_assoc] using hrest

theorem programLoop_err (sr : Nat → Nat) (bit : Nat) (wd : Bool) (spin p : Nat) (ps : List Nat) :
    ∀ (fuel adr sz : Nat) (buf : Nat → Nat) (m : Machine),
      cleanPolls sr ps m.srReads → busyFor sr (m.srReads + readsOf ps) p →
      u32 (sr (m.srReads + readsOf ps + p + 1)) &&& FLASH_ERR ≠ 0 →
      sz % 2 = 0 → 2 * ps.length < sz → sz < 2 ^ 32 →
      (∀ q, q ∈ ps → q < spin) → p < spin → ps.length < fuel →
      programLoop sr bit wd spin fuel adr sz buf m = (errRun sr bit wd adr buf ps p m, some 1) := by
  induction ps with
  | nil =>
    intro fuel adr sz buf m _ hb he _ hsz _ _ hp hfuel
    obtain ⟨k, rfl⟩ : ∃ k, fuel = k + 1 := ⟨fuel - 1, by simp at hfuel; omega⟩
    have hsz0 : sz ≠ 0 := by simp at hsz; omega
    have hb1 : busyFor sr (wrM16 adr (rd16 buf) (setCR bit m)).srReads p := by
      simpa [readsOf] using hb
    rw [programLoop, if_neg hsz0, wait_done sr wd p spin _ hb1 hp]
    have he1 : (rdSR sr (clrCR bit (waited wd p (wrM16 adr (rd16 buf) (setCR bit m))))).1
        &&& FLASH_ERR ≠ 0 := by
      simp only [rdSR_fst, clrCR_srReads, waited_srReads, wrM16_srReads, setCR_srReads]
      simpa [readsOf] using he
    simp only []
    rw [if_pos he1]
    rfl
  | cons q ps ih =>
    intro fuel adr sz buf m hc hb he hev hsz hlt hspin hp hfuel
    obtain ⟨k, rfl⟩ : ∃ k, fuel = k + 1 := ⟨fuel - 1, by simp at hfuel; omega⟩
    obtain ⟨hbq, heq, hrest⟩ := hc
    have hsz0 : sz ≠ 0 := by omega
    have hb1 : busyFor sr (wrM16 adr (rd16 buf) (setCR bit m)).srReads q := by simpa using hbq
    rw [programLoop, if_neg hsz0, wait_done sr wd q spin _ hb1 (hspin q (by simp))]
    have he1 : ¬ ((rdSR sr (clrCR bit (waited wd q (wrM16 adr (rd16 buf) (setCR bit m))))).1
        &&& FLASH_ERR ≠ 0) := by
      simp only [rdSR_fst, clrCR_srReads, waited_srReads, wrM16_srReads, setCR_srReads]
      simpa using heq
    simp only []
    rw [if_neg he1]
    have hr : readsOf (q :: ps) = q + 2 + readsOf ps := by simp [readsOf]
    have hs : sub2 sz = sz - 2 := by simp only [sub2, u32]; omega
    simp only [List.length_cons] at hsz hfuel
    rw [ih k (u32 (adr + 2)) (sub2 sz) (fun i => buf (i + 2)) _ ?_ ?_ ?_ (by omega) (by omega)
      (by omega) (fun r hr => hspin r (by simp [hr])) hp (by omega)]
    · rfl
    · simpa [Nat.add_assoc] using hrest
    · have : (rdSR sr (clrCR bit (waited wd q (wrM16 adr (rd16 buf) (setCR bit m))))).2.srReads
          + readsOf ps = m.srReads + readsOf (q :: ps) := by
        simp; omega
      rw [this]; exact hb
    · have : (rdSR sr (clrCR bit (waited wd q (wrM16 adr (rd16 buf) (setCR bit m))))).2.srReads
          + readsOf ps = m.srReads + readsOf (q :: ps) := by
        simp; omega
      rw [this]; exact he

theorem programLoop_one_inv (sr : Nat → Nat) (bit : Nat) (wd : Bool) (spin fuel : Nat) :
    ∀ (adr sz : Nat) (buf : Nat → Nat) (m m1 : Machine),
      sz % 2 = 0 → sz < 2 ^ 32 →
      programLoop sr bit wd spin fuel adr sz buf m = (m1, some 1) →
      ∃ ps p, cleanPolls sr ps m.srReads ∧ busyFor sr (m.srReads + readsOf ps) p
        ∧ u32 (sr (m.srReads + readsOf ps + p + 1)) &&& FLASH_ERR ≠ 0
        ∧ 2 * ps.length < sz := by
  induction fuel with
  | zero =>
    intro adr sz buf m m1 _ _ h
    rw [programLoop] at h
    split_ifs at h <;> simp at h
  | succ k ih =>
    intro adr sz buf m m1 hev hlt h
    rw [programLoop] at h
    by_cases hsz : sz = 0
    · rw [if_pos hsz] at h; simp at h
    · rw [if_neg hsz] at h
      generalize hw : (if wd then waitBusyIWDG sr spin (wrM16 adr (rd16 buf) (setCR bit m))
        else waitBusy sr spin (wrM16 adr (rd16 buf) (setCR bit m))) = r at h
      rcases r with ⟨m2, b⟩
      cases b
      · simp at h
      · obtain ⟨p, _, hb, rfl⟩ := wait_inv sr wd spin _ m2 hw
        simp only [] at h
        by_cases he : (rdSR sr (clrCR bit (waited wd p (wrM16 adr (rd16 buf)
            (setCR bit m))))).1 &&& FLASH_ERR ≠ 0
        · refine ⟨[], p, trivial, ?_, ?_, by simp; omega⟩
          · simpa [readsOf] using hb
          · simpa [readsOf] using he
        · rw [if_neg he] at h
          have hs : sub2 sz = sz - 2 := by simp only [sub2, u32]; omega
          obtain ⟨ps, q, hc, hbq, heq, hlen⟩ := ih _ _ _ _ m1 (by omega) (by omega) h
          have hr : readsOf (p :: ps) = p + 2 + readsOf ps := by simp [readsOf]
          have hidx : (rdSR sr (clrCR bit (waited wd p (wrM16 adr (rd16 buf)
              (setCR bit m))))).2.srReads = m.srReads + p + 2 := by simp
          rw [hidx] at hc hbq heq
          refine ⟨p :: ps, q, ⟨by simpa using hb, ?_, hc⟩, ?_, ?_, by simp; omega⟩
          · simpa using he
          · rw [hr, show m.srReads + (p + 2 + readsOf ps) = m.srReads + p + 2 + readsOf ps by omega]
            exact hbq
          · rw [hr, show m.srReads + (p + 2 + readsOf ps) = m.srReads + p + 2 + readsOf ps by omega]
            exact heq

theorem u16_rd16 (buf : Nat → Nat) : u16 (rd16 buf) = rd16 buf := by
  simp only [u16, rd16]
  omega

theorem u32_step (adr k : Nat) : u32 (u32 (adr + 2) + 2 * k) = u32 (adr + 2 * (k + 1)) := by
  simp only [u32]
  omega

theorem pageWrites_succ (adr : Nat) (buf : Nat → Nat) (n : Nat) :
    pageWrites adr buf (n + 1)
      = Access.w16 (u32 adr) (rd16 buf) :: pageWrites (u32 (adr + 2)) (shift2 buf) n := by
  simp only [pageWrites, List.range_succ_eq_map, List.map_cons, List.map_map]
  congr 1
  apply List.map_congr_left
  intro k _
  simp only [Function.comp, shift2, u32_step]
  rfl

theorem stepOK_trace (bit : Nat) (wd : Bool) (p adr : Nat) (buf : Nat → Nat) (m : Machine) :
    (stepOK bit wd p adr buf m).trace = m.trace ++ stepWrites bit wd p adr buf m.FLASH.CR := by
  simp [stepOK, stepWrites, u16_rd16]

theorem okRun_trace (bit : Nat) (wd : Bool) (ps : List Nat) :
    ∀ (adr : Nat) (buf : Nat → Nat) (m : Machine),
      ∃ t, (okRun bit wd adr buf ps m).trace = m.trace ++ t
        ∧ halfWords t = pageWrites adr buf ps.length
        ∧ wdView t = wdWrites wd adr buf ps := by
  induction ps with
  | nil => intro adr buf m; exact ⟨[], by simp [okRun], rfl, rfl⟩
  | cons p ps ih =>
    intro adr buf m
    obtain ⟨t, ht, hh, hw⟩ := ih (u32 (adr + 2)) (shift2 buf) (stepOK bit wd p adr buf m)
    refine ⟨stepWrites bit wd p adr buf m.FLASH.CR ++ t, ?_, ?_, ?_⟩
    · rw [okRun, ht, stepOK_trace, List.append_assoc]
    · rw [List.length_cons, pageWrites_succ, ← hh]
      cases wd <;> simp [stepWrites, halfWords, isHalfWord, List.filter_replicate]
    · rw [wdWrites, ← hw]
      cases wd <;> simp [stepWrites, wdView, isHalfWord, isKick, List.filter_replicate]

theorem or_and_self (x e : Nat) : (x ||| e) &&& e = e := by
  apply Nat.eq_of_testBit_eq
  intro i
  simp only [Nat.testBit_and, Nat.testBit_or]
  cases x.testBit i <;> cases e.testBit i <;> rfl

theorem written_back (x : Nat) : u32 (x ||| FLASH_ERR) &&& FLASH_ERR = FLASH_ERR := by
  rw [u32_and _ _ (by decide), or_and_self]

@[simp] theorem resetErrorFlags_trace (sr : Nat → Nat) (m : Machine) :
    (resetErrorFlags sr m).trace
      = m.trace ++ [Access.w32 Reg.SR (u32 (u32 (sr m.srReads) ||| FLASH_ERR))] := by
  simp [resetErrorFlags]

@[simp] theorem resetErrorFlags_CR (sr : Nat → Nat) (m : Machine) :
    (resetErrorFlags sr m).FLASH.CR = m.FLASH.CR := by
  simp [resetErrorFlags, wr, store]

@[simp] theorem resetErrorFlags_srReads (sr : Nat → Nat) (m : Machine) :
    (resetErrorFlags sr m).srReads = m.srReads + 1 := by
  simp [resetErrorFlags]

theorem and_not32_even (x : Nat) (h : x < 2 ^ 32) : x &&& not32 1 = 2 * (x / 2) := by
  have h1 : (x &&& not32 1) % 2 = 0 := by
    have : ¬ ((x &&& not32 1) % 2 = 1) := by
      rw [Nat.and_mod_two_eq_one]
      intro hh
      exact absurd hh.2 (by decide)
    omega
  have h2 : (x &&& not32 1) / 2 = x / 2 := by
    rw [Nat.and_div_two]
    have : not32 1 / 2 = 2 ^ 31 - 1 := by decide
    rw [this, Nat.and_pow_two_sub_one_eq_mod]
    apply Nat.mod_eq_of_lt
    omega
  omega

theorem adjustedSize_eq (sz : Nat) (h : sz + 1 < 2 ^ 32) : adjustedSize sz = 2 * ((sz + 1) / 2) := by
  have : u32 (sz + 1) = sz + 1 := Nat.mod_eq_of_lt h
  rw [adjustedSize, this, and_not32_even _ h]

theorem adjustedSize_even (sz : Nat) : adjustedSize sz % 2 = 0 := by
  have h : u32 (sz + 1) < 2 ^ 32 := Nat.mod_lt _ (by decide)
  rw [adjustedSize, and_not32_even _ h]
  omega

theorem adjustedSize_lt (sz : Nat) : adjustedSize sz < 2 ^ 32 := by
  have h : u32 (sz + 1) < 2 ^ 32 := Nat.mod_lt _ (by decide)
  rw [adjustedSize, and_not32_even _ h]
  omega

theorem errRun_trace (sr : Nat → Nat) (bit : Nat) (wd : Bool) (p : Nat) (ps : List Nat)
    (hclr : not32 bit &&& bit = 0) (hbit : bit < 2 ^ 32) :
    ∀ (adr : Nat) (buf : Nat → Nat) (m : Machine),
      ∃ t v, (errRun sr bit wd adr buf ps p m).trace = m.trace ++ t
        ∧ halfWords t = pageWrites adr buf (ps.length + 1)
        ∧ wdView t = wdWrites wd adr buf (ps ++ [p])
        ∧ t.getLast? = some (Access.w32 Reg.SR v)
        ∧ v &&& FLASH_ERR = FLASH_ERR
        ∧ writesTo Reg.SR t = [v]
        ∧ (errRun sr bit wd adr buf ps p m).FLASH.CR &&& bit = 0 := by
  induction ps with
  | nil =>
    intro adr buf m
    refine ⟨stepWrites bit wd p adr buf m.FLASH.CR ++
      [Access.w32 Reg.SR (u32 (u32 (sr (m.srReads + p + 1 + 1)) ||| FLASH_ERR))],
      u32 (u32 (sr (m.srReads + p + 1 + 1)) ||| FLASH_ERR),
      ?_, ?_, ?_, ?_, written_back _, ?_, ?_⟩
    · simp [errRun, stepWrites, u16_rd16]
    · rw [pageWrites_succ]
      cases wd <;> simp [stepWrites, halfWords, isHalfWord, List.filter_replicate, pageWrites]
    · cases wd <;> simp [stepWrites, wdView, wdWrites, isHalfWord, isKick, List.filter_replicate]
    · simp
    · cases wd <;> simp [stepWrites, writesTo, List.filterMap_replicate]
    · simp only [errRun, resetErrorFlags_CR, polled_FLASH, clrCR_CR, waited_FLASH, wrM16_FLASH,
        setCR_CR]
      rw [test_after_clr _ _ _ hbit, hclr, Nat.and_zero]
  | cons q ps ih =>
    intro adr buf m
    obtain ⟨t, v, ht, hh, hw, hl, hv, hs, hc⟩ :=
      ih (u32 (adr + 2)) (shift2 buf) (stepOK bit wd q adr buf m)
    refine ⟨stepWrites bit wd q adr buf m.FLASH.CR ++ t, v, ?_, ?_, ?_, ?_, hv, ?_, ?_⟩
    · rw [errRun, ht, stepOK_trace, List.append_assoc]
    · rw [List.length_cons, pageWrites_succ, ← hh]
      cases wd <;> simp [stepWrites, halfWords, isHalfWord, List.filter_replicate]
    · rw [List.cons_append, wdWrites, ← hw]
      cases wd <;> simp [stepWrites, wdView, isHalfWord, isKick, List.filter_replicate]
    · rw [List.getLast?_append, hl]; rfl
    · rw [← hs]
      cases wd <;> simp [stepWrites, writesTo, List.filterMap_replicate]
    · rw [errRun]; exact hc

theorem mem_le_sum (ps : List Nat) (q : Nat) (h : q ∈ ps) : q ≤ ps.sum := by
  induction ps with
  | nil => simp at h
  | cons a l ih =>
    rcases List.mem_cons.mp h with rfl | h1
    · simp
    · have := ih h1
      simp
      omega

theorem exists_busyFor (sr : Nat → Nat)
    (h : ∀ i, ∃ j, i ≤ j ∧ u32 (sr j) &&& FLASH_BSY = 0) (i : Nat) : ∃ p, busyFor sr i p := by
  have hex : ∃ d, u32 (sr (i + d)) &&& FLASH_BSY = 0 := by
    obtain ⟨j, hj, hc⟩ := h i
    exact ⟨j - i, by rwa [Nat.add_sub_cancel' hj]⟩
  classical
  exact ⟨Nat.find hex, fun t ht => Nat.find_min hex ht, Nat.find_spec hex⟩

theorem exists_cleanPolls (sr : Nat → Nat)
    (hb : ∀ i, ∃ j, i ≤ j ∧ u32 (sr j) &&& FLASH_BSY = 0)
    (he : ∀ i, u32 (sr i) &&& FLASH_ERR = 0) (n : Nat) :
    ∀ i, ∃ ps, ps.length = n ∧ cleanPolls sr ps i := by
  induction n with
  | zero => intro i; exact ⟨[], rfl, trivial⟩
  | succ n ih =>
    intro i
    obtain ⟨p, hp⟩ := exists_busyFor sr hb i
    obtain ⟨ps, hlen, hc⟩ := ih (i + p + 2)
    exact ⟨p :: ps, by simp [hlen], hp, he _, hc⟩

theorem programLoop_ok_run (sr : Nat → Nat) (bit : Nat) (wd : Bool) (ps : List Nat)
    (fuel adr sz : Nat) (buf : Nat → Nat) (m : Machine)
    (hc : cleanPolls sr ps m.srReads) (hsz : sz = 2 * ps.length) (hlt : sz < 2 ^ 32)
    (hf : ps.sum + ps.length < fuel) :
    (programLoop sr bit wd fuel fuel adr sz buf m).2 = some 0
    ∧ halfWords (newWrites m (programLoop sr bit wd fuel fuel adr sz buf m).1)
        = pageWrites adr buf ps.length
    ∧ wdView (newWrites m (programLoop sr bit wd fuel fuel adr sz buf m).1)
        = wdWrites wd adr buf ps := by
  rw [programLoop_ok sr bit wd fuel ps fuel adr sz buf m hc hsz hlt
    (fun p hp => by have := mem_le_sum ps p hp; omega) (by omega)]
  obtain ⟨t, ht, hh, hw⟩ := okRun_trace bit wd ps adr buf m
  rw [newWrites_eq _ _ _ ht]
  exact ⟨rfl, hh, hw⟩

theorem programLoop_err_run (sr : Nat → Nat) (bit : Nat) (wd : Bool) (ps : List Nat) (p : Nat)
    (fuel adr sz : Nat) (buf : Nat → Nat) (m : Machine)
    (hclr : not32 bit &&& bit = 0) (hbit : bit < 2 ^ 32)
    (hc : cleanPolls sr ps m.srReads) (hb : busyFor sr (m.srReads + readsOf ps) p)
    (he : u32 (sr (m.srReads + readsOf ps + p + 1)) &&& FLASH_ERR ≠ 0)
    (hev : sz % 2 = 0) (hsz : 2 * ps.length < sz) (hlt : sz < 2 ^ 32)
    (hf : ps.sum + p + ps.length < fuel) :
    (programLoop sr bit wd fuel fuel adr sz buf m).2 = some 1
    ∧ halfWords (newWrites m (programLoop sr bit wd fuel fuel adr sz buf m).1)
        = pageWrites adr buf (ps.length + 1)
    ∧ wdView (newWrites m (programLoop sr bit wd fuel fuel adr sz buf m).1)
        = wdWrites wd adr buf (ps ++ [p])
    ∧ (programLoop sr bit wd fuel fuel adr sz buf m).1.FLASH.CR &&& bit = 0
    ∧ ∃ v, (newWrites m (programLoop sr bit wd fuel fuel adr sz buf m).1).getLast?
          = some (Access.w32 Reg.SR v)
        ∧ writesTo Reg.SR (newWrites m (programLoop sr bit wd fuel fuel adr sz buf m).1) = [v]
        ∧ v &&& FLASH_ERR = FLASH_ERR := by
  rw [programLoop_err sr bit wd fuel p ps fuel adr sz buf m hc hb he hev hsz hlt
    (fun q hq => by have := mem_le_sum ps q hq; omega) (by omega) (by omega)]
  obtain ⟨t, v, ht, hh, hw, hl, hv, hs, hcr⟩ := errRun_trace sr bit wd p ps hclr hbit adr buf m
  rw [newWrites_eq _ _ _ ht]
  exact ⟨rfl, hh, hw, hcr, v, hl, hs, hv⟩

/-! ## Runs of the erase functions, continued -/

theorem OPT_EraseChip_run (sr : Nat → Nat) (m : Machine) (n1 n2 fuel : Nat)
    (h1 : busyFor sr (m.srReads + 1) n1) (h2 : busyFor sr (m.srReads + n1 + 2) n2)
    (hf1 : n1 < fuel) (hf2 : n2 < fuel) :
    FLASH_OPT.EraseChip sr fuel m =
      if u32 (sr (m.srReads + n1 + n2 + 3)) &&& FLASH_ERR ≠ 0 then
        (resetErrorFlags sr (polled 1 (afterReprotect sr n1 n2 m)), some 1)
      else (polled 1 (afterReprotect sr n1 n2 m), some 0) := by
  have hb1 : busyFor sr (setCR FLASH_STRT (setCR FLASH_OPTER (resetErrorFlags sr m))).srReads n1 := by
    simpa using h1
  have hb2 : busyFor sr (wrM16 0x1FFFF800 RDPRT_KEY (setCR FLASH_OPTPG (clrCR FLASH_OPTER
      (polled 1 (kicked n1 (setCR FLASH_STRT (setCR FLASH_OPTER
        (resetErrorFlags sr m)))))))).srReads n2 := by
    simp only [wrM16_srReads, setCR_srReads, clrCR_srReads, polled_srReads, kicked_srReads,
      resetErrorFlags_srReads]
    rw [show m.srReads + 1 + n1 + 1 = m.srReads + n1 + 2 by omega]
    exact h2
  simp only [FLASH_OPT.EraseChip, waitBusyIWDG_done sr n1 fuel _ hb1 hf1,
    waitBusyIWDG_done sr n2 fuel _ hb2 hf2]
  have hidx : (afterReprotect sr n1 n2 m).srReads = m.srReads + n1 + n2 + 3 := by
    simp only [afterReprotect, wrM16_srReads, setCR_srReads, clrCR_srReads, polled_srReads,
      kicked_srReads, resetErrorFlags_srReads]
    omega
  show (if (rdSR sr (afterReprotect sr n1 n2 m)).1 &&& FLASH_ERR ≠ 0 then
      (resetErrorFlags sr (rdSR sr (afterReprotect sr n1 n2 m)).2, some 1)
    else ((rdSR sr (afterReprotect sr n1 n2 m)).2, some 0)) = _
  simp only [rdSR_fst, rdSR_snd, hidx]

theorem afterReprotect_trace (sr : Nat → Nat) (n1 n2 : Nat) (m : Machine) :
    (afterReprotect sr n1 n2 m).trace = m.trace ++
      (optEraseWrites (u32 (sr m.srReads)) m.FLASH.CR n1
      ++ [Access.w32 Reg.CR (u32 (optErasedCR m.FLASH.CR ||| FLASH_OPTPG)),
          Access.w16 0x1FFFF800 0x55AA]
      ++ (List.replicate n2 (Access.w32 Reg.IWDG_KR 0xAAAA)
      ++ [Access.w32 Reg.CR
            (u32 (u32 (optErasedCR m.FLASH.CR ||| FLASH_OPTPG) &&& not32 FLASH_OPTPG))])) := by
  have hk : u16 RDPRT_KEY = 0x55AA := by decide
  have ha : u32 0x1FFFF800 = 0x1FFFF800 := by decide
  simp [afterReprotect, optEraseWrites, optErasedCR, hk, ha]

theorem optEraseWrites_halfWords (s cr n1 : Nat) : halfWords (optEraseWrites s cr n1) = [] := by
  simp [optEraseWrites, halfWords, isHalfWord, List.filter_replicate]

theorem optEraseWrites_SR (s cr n1 : Nat) :
    writesTo Reg.SR (optEraseWrites s cr n1) = [u32 (s ||| FLASH_ERR)] := by
  simp [optEraseWrites, writesTo, List.filterMap_replicate]

theorem optErased_bits (cr : Nat) :
    u32 (optErasedCR cr ||| FLASH_OPTPG) &&& FLASH_OPTER = 0
    ∧ u32 (optErasedCR cr ||| FLASH_OPTPG) &&& FLASH_OPTPG = FLASH_OPTPG := by
  constructor
  · rw [test_after_set _ _ _ (by decide), optErasedCR, test_after_clr _ _ _ (by decide)]
    rw [show not32 FLASH_OPTER &&& FLASH_OPTER = 0 by decide,
      show FLASH_OPTPG &&& FLASH_OPTER = 0 by decide]
    simp
  · rw [u32_and _ _ (by decide), or_and_self]

@[simp] theorem wr_AR_CR (v : Nat) (m : Machine) : (wr Reg.AR v m).FLASH.CR = m.FLASH.CR := by
  simp [wr, store]

theorem or_and_absorb (b s : Nat) : b ||| (s &&& b) = b := by
  apply Nat.eq_of_testBit_eq
  intro i
  simp only [Nat.testBit_and, Nat.testBit_or]
  cases b.testBit i <;> cases s.testBit i <;> rfl

theorem bit_stays (c b s : Nat) (hb : b < 2 ^ 32) : u32 (u32 (c ||| b) ||| s) &&& b = b := by
  rw [u32_and _ _ hb, Nat.and_distrib_right, u32_and _ _ hb, or_and_self, or_and_absorb]

/-! ## Invariants of arbitrary runs -/

theorem Ext_refl (P : Access → Prop) (m : Machine) : Ext P m m := ⟨[], by simp, by simp⟩

theorem Ext_snoc (P : Access → Prop) (m0 m m1 : Machine) (a : Access)
    (h : Ext P m0 m) (ht : m1.trace = m.trace ++ [a]) (ha : P a) : Ext P m0 m1 := by
  obtain ⟨t, h1, h2⟩ := h
  refine ⟨t ++ [a], by rw [ht, h1, List.append_assoc], ?_⟩
  intro b hb
  rcases List.mem_append.mp hb with hb | hb
  · exact h2 b hb
  · rw [List.mem_singleton] at hb; rw [hb]; exact ha

theorem Ext_same (P : Access → Prop) (m0 m m1 : Machine)
    (h : Ext P m0 m) (ht : m1.trace = m.trace) : Ext P m0 m1 := by
  obtain ⟨t, h1, h2⟩ := h
  exact ⟨t, by rw [ht, h1], h2⟩

theorem Ext_newWrites (P : Access → Prop) (m0 m : Machine) (h : Ext P m0 m) :
    ∀ a, a ∈ newWrites m0 m → P a := by
  obtain ⟨t, h1, h2⟩ := h
  rw [newWrites_eq _ _ _ h1]
  exact h2

theorem waitBusyIWDG_keeps (sr : Nat → Nat) (I : Machine → Prop)
    (hp : ∀ m, I m → I (polled 1 m)) (hk : ∀ m, I m → I (wr Reg.IWDG_KR 0xAAAA m)) :
    ∀ (fuel : Nat) (m : Machine), I m → I (waitBusyIWDG sr fuel m).1 := by
  intro fuel
  induction fuel with
  | zero => intro m h; exact h
  | succ k ih =>
    intro m h
    rw [waitBusyIWDG]
    split_ifs
    · exact ih _ (hk _ (hp _ h))
    · exact hp _ h

theorem waitBusy_keeps (sr : Nat → Nat) (I : Machine → Prop)
    (hp : ∀ m, I m → I (polled 1 m)) :
    ∀ (fuel : Nat) (m : Machine), I m → I (waitBusy sr fuel m).1 := by
  intro fuel
  induction fuel with
  | zero => intro m h; exact h
  | succ k ih =>
    intro m h
    rw [waitBusy]
    split_ifs
    · exact ih _ (hp _ h)
    · exact hp _ h

theorem programLoop_keeps (sr : Nat → Nat) (bit : Nat) (wd : Bool) (spin : Nat)
    (I : Machine → Prop)
    (hp : ∀ m, I m → I (polled 1 m))
    (hk : wd = true → ∀ m, I m → I (wr Reg.IWDG_KR 0xAAAA m))
    (hset : ∀ m, I m → I (setCR bit m)) (hclr : ∀ m, I m → I (clrCR bit m))
    (hw : ∀ a v m, I m → I (wrM16 a v m)) (hr : ∀ m, I m → I (resetErrorFlags sr m)) :
    ∀ (fuel adr sz : Nat) (buf : Nat → Nat) (m : Machine),
      I m → I (programLoop sr bit wd spin fuel adr sz buf m).1 := by
  intro fuel
  induction fuel with
  | zero =>
    intro adr sz buf m h
    rw [programLoop]
    split_ifs <;> exact h
  | succ k ih =>
    intro adr sz buf m h
    rw [programLoop]
    by_cases hsz : sz = 0
    · rw [if_pos hsz]; exact h
    · rw [if_neg hsz]
      have hwait : I (if wd then waitBusyIWDG sr spin (wrM16 adr (rd16 buf) (setCR bit m))
          else waitBusy sr spin (wrM16 adr (rd16 buf) (setCR bit m))).1 := by
        cases wd
        · exact waitBusy_keeps sr I hp _ _ (hw _ _ _ (hset _ h))
        · exact waitBusyIWDG_keeps sr I hp (hk rfl) _ _ (hw _ _ _ (hset _ h))
      generalize (if wd then waitBusyIWDG sr spin (wrM16 adr (rd16 buf) (setCR bit m))
          else waitBusy sr spin (wrM16 adr (rd16 buf) (setCR bit m))) = r at hwait
      rcases r with ⟨m2, b⟩
      cases b
      · exact hwait
      · simp only []
        split_ifs
        · exact hr _ (hp _ (hclr _ hwait))
        · exact ih _ _ _ _ (hp _ (hclr _ hwait))

theorem or_lock (c b : Nat) (h : c &&& FLASH_LOCK = FLASH_LOCK) :
    u32 (c ||| b) &&& FLASH_LOCK = FLASH_LOCK := by
  rw [test_after_set _ _ _ (by decide), h, or_and_absorb]

theorem and_lock (c b : Nat) (h : c &&& FLASH_LOCK = FLASH_LOCK)
    (hb : not32 b &&& FLASH_LOCK = FLASH_LOCK) :
    u32 (c &&& not32 b) &&& FLASH_LOCK = FLASH_LOCK := by
  rw [test_after_clr _ _ _ (by decide), hb, h]

theorem locked_polled (m0 m : Machine)
    (h : m.FLASH.CR &&& FLASH_LOCK = FLASH_LOCK ∧ Ext lockKept m0 m) :
    (polled 1 m).FLASH.CR &&& FLASH_LOCK = FLASH_LOCK ∧ Ext lockKept m0 (polled 1 m) :=
  ⟨h.1, Ext_same _ _ _ _ h.2 rfl⟩

theorem locked_kick (m0 m : Machine)
    (h : m.FLASH.CR &&& FLASH_LOCK = FLASH_LOCK ∧ Ext lockKept m0 m) :
    (wr Reg.IWDG_KR 0xAAAA m).FLASH.CR &&& FLASH_LOCK = FLASH_LOCK
      ∧ Ext lockKept m0 (wr Reg.IWDG_KR 0xAAAA m) :=
  ⟨by simpa [wr, store] using h.1, Ext_snoc _ _ _ _ _ h.2 (wr_trace _ _ _) trivial⟩

theorem locked_setCR (b : Nat) (m0 m : Machine)
    (h : m.FLASH.CR &&& FLASH_LOCK = FLASH_LOCK ∧ Ext lockKept m0 m) :
    (setCR b m).FLASH.CR &&& FLASH_LOCK = FLASH_LOCK ∧ Ext lockKept m0 (setCR b m) :=
  ⟨by rw [setCR_CR]; exact or_lock _ _ h.1,
    Ext_snoc _ _ _ _ _ h.2 (setCR_trace _ _) (or_lock _ _ h.1)⟩

theorem locked_clrCR (b : Nat) (hb : not32 b &&& FLASH_LOCK = FLASH_LOCK) (m0 m : Machine)
    (h : m.FLASH.CR &&& FLASH_LOCK = FLASH_LOCK ∧ Ext lockKept m0 m) :
    (clrCR b m).FLASH.CR &&& FLASH_LOCK = FLASH_LOCK ∧ Ext lockKept m0 (clrCR b m) :=
  ⟨by rw [clrCR_CR]; exact and_lock _ _ h.1 hb,
    Ext_snoc _ _ _ _ _ h.2 (clrCR_trace _ _) (and_lock _ _ h.1 hb)⟩

theorem locked_wrM16 (a v : Nat) (m0 m : Machine)
    (h : m.FLASH.CR &&& FLASH_LOCK = FLASH_LOCK ∧ Ext lockKept m0 m) :
    (wrM16 a v m).FLASH.CR &&& FLASH_LOCK = FLASH_LOCK ∧ Ext lockKept m0 (wrM16 a v m) :=
  ⟨h.1, Ext_snoc _ _ _ _ _ h.2 (wrM16_trace _ _ _) trivial⟩

theorem locked_reset (sr : Nat → Nat) (m0 m : Machine)
    (h : m.FLASH.CR &&& FLASH_LOCK = FLASH_LOCK ∧ Ext lockKept m0 m) :
    (resetErrorFlags sr m).FLASH.CR &&& FLASH_LOCK = FLASH_LOCK
      ∧ Ext lockKept m0 (resetErrorFlags sr m) :=
  ⟨by rw [resetErrorFlags_CR]; exact h.1,
    Ext_snoc _ _ _ _ _ h.2 (resetErrorFlags_trace _ _) trivial⟩

theorem locked_wrAR (v : Nat) (m0 m : Machine)
    (h : m.FLASH.CR &&& FLASH_LOCK = FLASH_LOCK ∧ Ext lockKept m0 m) :
    (wr Reg.AR v m).FLASH.CR &&& FLASH_LOCK = FLASH_LOCK ∧ Ext lockKept m0 (wr Reg.AR v m) :=
  ⟨by rw [wr_AR_CR]; exact h.1, Ext_snoc _ _ _ _ _ h.2 (wr_trace _ _ _) trivial⟩

theorem locked_wait (sr : Nat → Nat) (fuel : Nat) (m0 m : Machine)
    (h : m.FLASH.CR &&& FLASH_LOCK = FLASH_LOCK ∧ Ext lockKept m0 m) :
    (waitBusyIWDG sr fuel m).1.FLASH.CR &&& FLASH_LOCK = FLASH_LOCK
      ∧ Ext lockKept m0 (waitBusyIWDG sr fuel m).1 :=
  waitBusyIWDG_keeps sr (fun x => x.FLASH.CR &&& FLASH_LOCK = FLASH_LOCK ∧ Ext lockKept m0 x)
    (locked_polled m0) (locked_kick m0) fuel m h

theorem locked_programLoop (sr : Nat → Nat) (bit : Nat) (wd : Bool)
    (hb : not32 bit &&& FLASH_LOCK = FLASH_LOCK) (spin fuel adr sz : Nat) (buf : Nat → Nat)
    (m0 m : Machine) (h : m.FLASH.CR &&& FLASH_LOCK = FLASH_LOCK ∧ Ext lockKept m0 m) :
    (programLoop sr bit wd spin fuel adr sz buf m).1.FLASH.CR &&& FLASH_LOCK = FLASH_LOCK
      ∧ Ext lockKept m0 (programLoop sr bit wd spin fuel adr sz buf m).1 :=
  programLoop_keeps sr bit wd spin
    (fun x => x.FLASH.CR &&& FLASH_LOCK = FLASH_LOCK ∧ Ext lockKept m0 x)
    (locked_polled m0) (fun _ => locked_kick m0) (locked_setCR bit m0) (locked_clrCR bit hb m0)
    (fun a v => locked_wrM16 a v m0) (locked_reset sr m0) fuel adr sz buf m h

theorem lockHeld_of (m0 : Machine) (r : Machine × Option Int)
    (h : r.1.FLASH.CR &&& FLASH_LOCK = FLASH_LOCK ∧ Ext lockKept m0 r.1) : lockHeld m0 r :=
  ⟨Ext_newWrites _ _ _ h.2, h.1⟩

theorem lockHeldByAll_of_locked (sr : Nat → Nat) (fuel adr sz : Nat) (buf : Nat → Nat)
    (m0 : Machine) (h : m0.FLASH.CR &&& FLASH_LOCK = FLASH_LOCK) :
    lockHeldByAll sr fuel adr sz buf m0 := by
  have h0 : m0.FLASH.CR &&& FLASH_LOCK = FLASH_LOCK ∧ Ext lockKept m0 m0 := ⟨h, Ext_refl _ _⟩
  refine ⟨?_, ?_, ?_, ?_, ?_, ?_⟩
  · apply lockHeld_of
    have hw := locked_wait sr fuel m0 _ (locked_setCR FLASH_STRT m0 _ (locked_setCR FLASH_MER m0 _ h0))
    simp only [FLASH_MEM.EraseChip]
    generalize waitBusyIWDG sr fuel (setCR FLASH_STRT (setCR FLASH_MER m0)) = r at hw
    rcases r with ⟨m1, b⟩
    cases b
    · exact hw
    · exact locked_clrCR FLASH_MER (by decide) m0 _ hw
  · apply lockHeld_of
    have hw := locked_wait sr fuel m0 _ (locked_setCR FLASH_STRT m0 _
      (locked_wrAR adr m0 _ (locked_setCR FLASH_PER m0 _ h0)))
    simp only [FLASH_MEM.EraseSector]
    generalize waitBusyIWDG sr fuel (setCR FLASH_STRT (wr Reg.AR adr (setCR FLASH_PER m0))) = r
      at hw
    rcases r with ⟨m1, b⟩
    cases b
    · exact hw
    · exact locked_clrCR FLASH_PER (by decide) m0 _ hw
  · apply lockHeld_of
    simp only [FLASH_MEM.ProgramPage, MEM_loop_eq]
    exact locked_programLoop sr FLASH_PG false (by decide) _ _ _ _ _ m0 m0 h0
  · apply lockHeld_of
    have hw := locked_wait sr fuel m0 _ (locked_setCR FLASH_STRT m0 _
      (locked_setCR FLASH_OPTER m0 _ (locked_reset sr m0 _ h0)))
    simp only [FLASH_OPT.EraseChip]
    generalize waitBusyIWDG sr fuel (setCR FLASH_STRT (setCR FLASH_OPTER
      (resetErrorFlags sr m0))) = r at hw
    rcases r with ⟨m1, b⟩
    cases b
    · exact hw
    · simp only []
      have hw2 := locked_wait sr fuel m0 _ (locked_wrM16 0x1FFFF800 RDPRT_KEY m0 _
        (locked_setCR FLASH_OPTPG m0 _ (locked_clrCR FLASH_OPTER (by decide) m0 _ hw)))
      generalize waitBusyIWDG sr fuel (wrM16 0x1FFFF800 RDPRT_KEY
        (setCR FLASH_OPTPG (clrCR FLASH_OPTER m1))) = r2 at hw2
      rcases r2 with ⟨m2, b2⟩
      cases b2
      · exact hw2
      · simp only []
        have hc := locked_polled m0 _ (locked_clrCR FLASH_OPTPG (by decide) m0 _ hw2)
        split_ifs
        · exact locked_reset sr m0 _ hc
        · exact hc
  · apply lockHeld_of
    have hw := locked_wait sr fuel m0 _ (locked_setCR FLASH_STRT m0 _
      (locked_setCR FLASH_OPTER m0 _ h0))
    simp only [FLASH_OPT.EraseSector]
    generalize waitBusyIWDG sr fuel (setCR FLASH_STRT (setCR FLASH_OPTER m0)) = r at hw
    rcases r with ⟨m1, b⟩
    cases b
    · exact hw
    · exact locked_clrCR FLASH_OPTER (by decide) m0 _ hw
  · apply lockHeld_of
    simp only [FLASH_OPT.ProgramPage, OPT_loop_eq]
    exact locked_programLoop sr FLASH_OPTPG true (by decide) _ _ _ _ _ m0 m0 h0

theorem sub2_iterate (j : Nat) : ∀ s, s % 2 = 0 → s < 2 ^ 32 → 2 * j ≤ s →
    sub2^[j] s = s - 2 * j := by
  induction j with
  | zero => intro s _ _ _; rfl
  | succ k ih =>
    intro s hev hlt hle
    have hs : sub2 s = s - 2 := by simp only [sub2, u32]; omega
    rw [Function.iterate_succ_apply, hs, ih (s - 2) (by omega) (by omega) (by omega)]
    omega

theorem nokick_programLoop (sr : Nat → Nat) (bit spin fuel adr sz : Nat) (buf : Nat → Nat)
    (m : Machine) :
    Ext (fun a => isKick a = false) m (programLoop sr bit false spin fuel adr sz buf m).1 :=
  programLoop_keeps sr bit false spin (fun x => Ext (fun a => isKick a = false) m x)
    (fun _ h => Ext_same _ _ _ _ h rfl)
    (fun h => absurd h (by decide))
    (fun _ h => Ext_snoc _ _ _ _ _ h (setCR_trace _ _) rfl)
    (fun _ h => Ext_snoc _ _ _ _ _ h (clrCR_trace _ _) rfl)
    (fun _ _ _ h => Ext_snoc _ _ _ _ _ h (wrM16_trace _ _ _) rfl)
    (fun _ h => Ext_snoc _ _ _ _ _ h (resetErrorFlags_trace _ _) rfl)
    fuel adr sz buf m (Ext_refl _ _)

/-! ## Init -/

theorem unlock_clears_lock (c : Nat) : c &&& not32 FLASH_LOCK &&& FLASH_LOCK = 0 := by
  rw [Nat.and_assoc, show not32 FLASH_LOCK &&& FLASH_LOCK = 0 by decide, Nat.and_zero]

theorem unlock_twice (c : Nat) :
    c &&& not32 FLASH_LOCK &&& not32 FLASH_LOCK = c &&& not32 FLASH_LOCK := by
  rw [Nat.and_assoc, Nat.and_self]

theorem opt_unlock_clears_lock (c : Nat) :
    (c &&& not32 FLASH_LOCK ||| FLASH_OPTWRE) &&& FLASH_LOCK = 0 := by
  rw [Nat.and_distrib_right, unlock_clears_lock,
    show FLASH_OPTWRE &&& FLASH_LOCK = 0 by decide]
  rfl

theorem opt_unlock_twice (c : Nat) :
    ((c &&& not32 FLASH_LOCK ||| FLASH_OPTWRE) &&& not32 FLASH_LOCK) ||| FLASH_OPTWRE
      = c &&& not32 FLASH_LOCK ||| FLASH_OPTWRE := by
  rw [Nat.and_distrib_right, unlock_twice,
    show FLASH_OPTWRE &&& not32 FLASH_LOCK = FLASH_OPTWRE by decide, Nat.or_assoc, Nat.or_self]

theorem MEM_Init_twice (sr : Nat → Nat) (m : Machine) (adr clk fnc : Nat)
    (h : statusSettled sr m.srReads) :
    (FLASH_MEM.Init sr adr clk fnc m).2 = 0
    ∧ (FLASH_MEM.Init sr adr clk fnc (FLASH_MEM.Init sr adr clk fnc m).1).2 = 0
    ∧ regs (FLASH_MEM.Init sr adr clk fnc (FLASH_MEM.Init sr adr clk fnc m).1).1
        = regs (FLASH_MEM.Init sr adr clk fnc m).1
    ∧ (FLASH_MEM.Init sr adr clk fnc m).1.FLASH.CR &&& FLASH_LOCK = 0
    ∧ writesTo Reg.KEYR (newWrites m (FLASH_MEM.Init sr adr clk fnc m).1)
        = [FLASH_KEY1, FLASH_KEY2] := by
  have k1 : u32 FLASH_KEY1 = FLASH_KEY1 := by decide
  have k2 : u32 FLASH_KEY2 = FLASH_KEY2 := by decide
  have k3 : ¬ (FLASH_KEY2 = FLASH_KEY1) := by decide
  have z : u32 0 = 0 := by decide
  have w1 : u32 0x5555 = 0x5555 := by decide
  have w2 : u32 0x06 = 0x06 := by decide
  have w3 : u32 4095 = 4095 := by decide
  rcases m with ⟨⟨acr, keyr, optkeyr, srr, cr, ar, obr, wrpr⟩, ⟨kr, pr, rlr, isr⟩, ks, oks, n, tr⟩
  simp only [statusSettled] at h
  simp only [FLASH_MEM.Init, resetErrorFlags, wr, store, rdSR, k1, k2, z, w1, w2, w3, if_true,
    if_neg k3, and_self, true_and, polled, regs, newWrites]
  split_ifs <;> simp [h, unlock_twice, unlock_clears_lock, writesTo]

theorem OPT_Init_twice (sr : Nat → Nat) (m : Machine) (adr clk fnc : Nat)
    (h : statusSettled sr m.srReads) :
    (FLASH_OPT.Init sr adr clk fnc m).2 = 0
    ∧ (FLASH_OPT.Init sr adr clk fnc (FLASH_OPT.Init sr adr clk fnc m).1).2 = 0
    ∧ regs (FLASH_OPT.Init sr adr clk fnc (FLASH_OPT.Init sr adr clk fnc m).1).1
        = regs (FLASH_OPT.Init sr adr clk fnc m).1
    ∧ (FLASH_OPT.Init sr adr clk fnc m).1.FLASH.CR &&& FLASH_LOCK = 0
    ∧ writesTo Reg.KEYR (newWrites m (FLASH_OPT.Init sr adr clk fnc m).1)
        = [FLASH_KEY1, FLASH_KEY2]
    ∧ writesTo Reg.OPTKEYR (newWrites m (FLASH_OPT.Init sr adr clk fnc m).1)
        = [FLASH_KEY1, FLASH_KEY2] := by
  have k1 : u32 FLASH_KEY1 = FLASH_KEY1 := by decide
  have k2 : u32 FLASH_KEY2 = FLASH_KEY2 := by decide
  have k3 : ¬ (FLASH_KEY2 = FLASH_KEY1) := by decide
  have z : u32 0 = 0 := by decide
  have w1 : u32 0x5555 = 0x5555 := by decide
  have w2 : u32 0x06 = 0x06 := by decide
  have w3 : u32 4095 = 4095 := by decide
  rcases m with ⟨⟨acr, keyr, optkeyr, srr, cr, ar, obr, wrpr⟩, ⟨kr, pr, rlr, isr⟩, ks, oks, n, tr⟩
  simp only [statusSettled] at h
  simp only [FLASH_OPT.Init, resetErrorFlags, wr, store, rdSR, k1, k2, z, w1, w2, w3, if_true,
    if_neg k3, and_self, true_and, polled, regs, newWrites]
  split_ifs <;> simp [h, opt_unlock_twice, opt_unlock_clears_lock, writesTo]

/-! ## Sector tables -/

theorem tiles_range (sz : Nat) (h : 0 < sz) (n : Nat) :
    ∀ a, tiles a (a + n * sz) ((List.range n).map (fun k => (a + k * sz, sz))) := by
  induction n with
  | zero => intro a; simp [tiles]
  | succ n ih =>
    intro a
    rw [List.range_succ_eq_map, List.map_cons, List.map_map]
    refine ⟨by simp, h, ?_⟩
    have h1 := ih (a + sz)
    have h2 : (fun k => (a + k * sz, sz)) ∘ Nat.succ = fun k => (a + sz + k * sz, sz) := by
      funext k
      simp only [Function.comp, Nat.succ_eq_add_one, Nat.add_mul, Nat.one_mul, Prod.mk.injEq,
        and_true]
      omega
    rw [h2]
    have h3 : a + sz + n * sz = a + (n + 1) * sz := by rw [Nat.add_mul]; omega
    simpa [h3] using h1

theorem tiles_covers (l : List (Nat × Nat)) :
    ∀ a b, tiles a b l → a ≤ b ∧ ∀ x, (a ≤ x ∧ x < b) ↔ ∃ s, s ∈ l ∧ s.1 ≤ x ∧ x < s.1 + s.2 := by
  induction l with
  | nil =>
    intro a b h
    simp only [tiles] at h
    subst h
    exact ⟨Nat.le_refl _, fun x => ⟨fun hx => by omega, fun ⟨s, hs, _⟩ => by simp at hs⟩⟩
  | cons s rest ih =>
    intro a b h
    obtain ⟨h1, h2, h3⟩ := h
    obtain ⟨hle, hcov⟩ := ih _ _ h3
    refine ⟨by omega, fun x => ⟨fun hx => ?_, fun ⟨t, ht, htx⟩ => ?_⟩⟩
    · by_cases hxs : x < a + s.2
      · exact ⟨s, by simp, by omega, by omega⟩
      · obtain ⟨t, ht, htx⟩ := (hcov x).1 ⟨by omega, hx.2⟩
        exact ⟨t, by simp [ht], htx⟩
    · rcases List.mem_cons.mp ht with rfl | ht
      · omega
      · have := (hcov x).2 ⟨t, ht, htx⟩
        omega

theorem tiles_within (l : List (Nat × Nat)) :
    ∀ a b, tiles a b l → ∀ u, u ∈ l → a ≤ u.1 ∧ u.1 + u.2 ≤ b := by
  induction l with
  | nil => intro a b _ u hu; simp at hu
  | cons s rest ih =>
    intro a b h u hu
    obtain ⟨h1, h2, h3⟩ := h
    have hle := (tiles_covers rest _ _ h3).1
    rcases List.mem_cons.mp hu with rfl | hu
    · omega
    · have := ih _ _ h3 u hu
      omega

theorem tiles_disjoint (l : List (Nat × Nat)) :
    ∀ a b, tiles a b l → l.Pairwise (fun s t => s.1 + s.2 ≤ t.1) := by
  induction l with
  | nil => intro a b _; exact List.Pairwise.nil
  | cons s rest ih =>
    intro a b h
    obtain ⟨h1, h2, h3⟩ := h
    refine List.Pairwise.cons ?_ (ih _ _ h3)
    intro t ht
    have := tiles_within rest _ _ h3 t ht
    omega

theorem expandAddressed_256 (v t : Nat) :
    expandAddressed (FlashDevice_STM32F3xx_256 v t).DevAdr (FlashDevice_STM32F3xx_256 v t).szDev
        (FlashDevice_STM32F3xx_256 v t).sectors
      = (List.range 128).map (fun k => (0x08000000 + k * 0x800, 0x800)) := by
  simp [expandAddressed, stopOffset, FlashDevice_STM32F3xx_256]

theorem expandAddressed_512 (v t : Nat) :
    expandAddressed (FlashDevice_STM32F3xx_512 v t).DevAdr (FlashDevice_STM32F3xx_512 v t).szDev
        (FlashDevice_STM32F3xx_512 v t).sectors
      = (List.range 256).map (fun k => (0x08000000 + k * 0x800, 0x800)) := by
  simp [expandAddressed, stopOffset, FlashDevice_STM32F3xx_512]

theorem expandAddressed_OPT (v t : Nat) :
    expandAddressed (FlashDevice_FLASH_OPT v t).DevAdr (FlashDevice_FLASH_OPT v t).szDev
        (FlashDevice_FLASH_OPT v t).sectors
      = (List.range 1).map (fun k => (0x1FFFF800 + k * 0x10, 0x10)) := by
  simp [expandAddressed, stopOffset, FlashDevice_FLASH_OPT]

theorem exactlyCovers_of_tiles (d : FlashDevice) (l : List (Nat × Nat))
    (h : tiles d.DevAdr (d.DevAdr + d.szDev) l) : exactlyCovers d l :=
  ⟨h, (tiles_covers l _ _ h).2, tiles_disjoint l _ _ h⟩

/-! ## The claims -/

/-- C1 (as amended): ProgramPage, in both builds, on the no-error path.  For every adr,
every sz with sz + 1 below 2^32 and every buffer, when every busy-poll eventually reads
BSY clear and no status read shows PGERR or WRPRTERR, enough fuel makes the function
return 0, and its half-word writes are exactly the (sz + 1) / 2 writes whose k-th goes to
the unsigned long address (adr + 2k) mod 2^32 with value buf[2k] + 256 * buf[2k+1].
Whenever the programmed range ends at or below 2^32 these are the writes to adr + 2k, as
the specification words them. -/
theorem ProgramPage_programs_every_half_word (sr : Nat → Nat) (adr sz : Nat) (buf : Nat → Nat)
    (m : Machine) (hsz : sz + 1 < 2 ^ 32)
    (hbsy : ∀ i, ∃ j, i ≤ j ∧ u32 (sr j) &&& FLASH_BSY = 0)
    (herr : ∀ i, u32 (sr i) &&& FLASH_ERR = 0) :
    (∃ N, ∀ fuel, N ≤ fuel →
      ((FLASH_MEM.ProgramPage sr fuel adr sz buf m).2 = some 0
        ∧ halfWords (newWrites m (FLASH_MEM.ProgramPage sr fuel adr sz buf m).1)
            = pageWrites adr buf ((sz + 1) / 2))
      ∧ ((FLASH_OPT.ProgramPage sr fuel adr sz buf m).2 = some 0
        ∧ halfWords (newWrites m (FLASH_OPT.ProgramPage sr fuel adr sz buf m).1)
            = pageWrites adr buf ((sz + 1) / 2)))
    ∧ (adr + 2 * ((sz + 1) / 2) ≤ 2 ^ 32 →
        pageWrites adr buf ((sz + 1) / 2) = specPageWrites adr buf ((sz + 1) / 2)) := by
  constructor
  · obtain ⟨ps, hlen, hc⟩ := exists_cleanPolls sr hbsy herr ((sz + 1) / 2) m.srReads
    have ha : adjustedSize sz = 2 * ps.length := by rw [adjustedSize_eq sz hsz, hlen]
    refine ⟨ps.sum + ps.length + 1, fun fuel hf => ?_⟩
    have h1 := programLoop_ok_run sr FLASH_PG false ps fuel adr (adjustedSize sz) buf m hc ha
      (adjustedSize_lt sz) (by omega)
    have h2 := programLoop_ok_run sr FLASH_OPTPG true ps fuel adr (adjustedSize sz) buf m hc ha
      (adjustedSize_lt sz) (by omega)
    rw [hlen] at h1 h2
    simp only [FLASH_MEM.ProgramPage, FLASH_OPT.ProgramPage, MEM_loop_eq, OPT_loop_eq]
    exact ⟨⟨h1.1, h1.2.1⟩, h2.1, h2.2.1⟩
  · intro hfit
    apply List.map_congr_left
    intro k hk
    have hk1 : k < (sz + 1) / 2 := List.mem_range.mp hk
    have : u32 (adr + 2 * k) = adr + 2 * k := Nat.mod_eq_of_lt (by omega)
    rw [this]

/-- C1, witness: ProgramPage(0x08000000, 4, [0xDE,0xAD,0xBE,0xEF]) on hardware that is never
busy and never in error writes 0xADDE to 0x08000000, then 0xEFBE to 0x08000002, and
returns 0; with size 5 it makes exactly 3 half-word writes. -/
theorem ProgramPage_programs_every_half_word_witness :
    ((4 : Nat) + 1 < 2 ^ 32)
    ∧ (∀ i : Nat, ∃ j, i ≤ j ∧ u32 ((fun _ => 0) j) &&& FLASH_BSY = 0)
    ∧ (∀ i : Nat, u32 ((fun _ => 0) i) &&& FLASH_ERR = 0)
    ∧ pageWrites 0x08000000 (bufOf [0xDE, 0xAD, 0xBE, 0xEF]) ((4 + 1) / 2)
        = [Access.w16 0x08000000 0xADDE, Access.w16 0x08000002 0xEFBE]
    ∧ (∃ N, ∀ fuel, N ≤ fuel →
        (halfWords (newWrites resetMachine (FLASH_MEM.ProgramPage (fun _ => 0) fuel 0x08000000 5
          (bufOf [1, 2, 3, 4, 5, 6]) resetMachine).1)).length = 3)
    ∧ ∃ N, ∀ fuel, N ≤ fuel →
      ((FLASH_MEM.ProgramPage (fun _ => 0) fuel 0x08000000 4
            (bufOf [0xDE, 0xAD, 0xBE, 0xEF]) resetMachine).2 = some 0
        ∧ halfWords (newWrites resetMachine (FLASH_MEM.ProgramPage (fun _ => 0) fuel 0x08000000 4
            (bufOf [0xDE, 0xAD, 0xBE, 0xEF]) resetMachine).1)
            = pageWrites 0x08000000 (bufOf [0xDE, 0xAD, 0xBE, 0xEF]) ((4 + 1) / 2))
      ∧ ((FLASH_OPT.ProgramPage (fun _ => 0) fuel 0x08000000 4
            (bufOf [0xDE, 0xAD, 0xBE, 0xEF]) resetMachine).2 = some 0
        ∧ halfWords (newWrites resetMachine (FLASH_OPT.ProgramPage (fun _ => 0) fuel 0x08000000 4
            (bufOf [0xDE, 0xAD, 0xBE, 0xEF]) resetMachine).1)
            = pageWrites 0x08000000 (bufOf [0xDE, 0xAD, 0xBE, 0xEF]) ((4 + 1) / 2)) :=
  ⟨by decide, fun i => ⟨i, Nat.le_refl i, (show u32 0 &&& FLASH_BSY = 0 by decide)⟩,
    fun _ => (show u32 0 &&& FLASH_ERR = 0 by decide), by decide,
    (ProgramPage_programs_every_half_word (fun _ => 0) 0x08000000 5
      (bufOf [1, 2, 3, 4, 5, 6]) resetMachine (by decide)
      (fun i => ⟨i, Nat.le_refl i, (show u32 0 &&& FLASH_BSY = 0 by decide)⟩)
      (fun _ => (show u32 0 &&& FLASH_ERR = 0 by decide))).1.imp
      (fun _ h fuel hf => by rw [(h fuel hf).1.2]; decide),
    (ProgramPage_programs_every_half_word (fun _ => 0) 0x08000000 4
      (bufOf [0xDE, 0xAD, 0xBE, 0xEF]) resetMachine (by decide)
      (fun i => ⟨i, Nat.le_refl i, (show u32 0 &&& FLASH_BSY = 0 by decide)⟩)
      (fun _ => (show u32 0 &&& FLASH_ERR = 0 by decide))).1⟩

/-- C1, counterexample to the claim as worded (address adr + 2k as a natural number):
ProgramPage(0xFFFFFFFE, 4, [0xDE,0xAD,0xBE,0xEF]) on hardware that is never busy and never in
error returns 0 after writing 0xADDE to 0xFFFFFFFE and 0xEFBE to address 0, whereas the
worded list puts the second write at 0x100000000.  Hence the worded claim does not hold. -/
theorem ProgramPage_address_wraps :
    ((FLASH_MEM.ProgramPage (fun _ => 0) 2 0xFFFFFFFE 4
        (bufOf [0xDE, 0xAD, 0xBE, 0xEF]) resetMachine).2 = some 0
      ∧ halfWords (newWrites resetMachine (FLASH_MEM.ProgramPage (fun _ => 0) 2 0xFFFFFFFE 4
          (bufOf [0xDE, 0xAD, 0xBE, 0xEF]) resetMachine).1)
        = [Access.w16 0xFFFFFFFE 0xADDE, Access.w16 0 0xEFBE]
      ∧ specPageWrites 0xFFFFFFFE (bufOf [0xDE, 0xAD, 0xBE, 0xEF]) ((4 + 1) / 2)
        = [Access.w16 0xFFFFFFFE 0xADDE, Access.w16 0x100000000 0xEFBE])
    ∧ ¬ (∀ (sr : Nat → Nat) (adr sz : Nat) (buf : Nat → Nat) (m : Machine),
          sz + 1 < 2 ^ 32 →
          (∀ i, ∃ j, i ≤ j ∧ u32 (sr j) &&& FLASH_BSY = 0) →
          (∀ i, u32 (sr i) &&& FLASH_ERR = 0) →
          ∃ N, ∀ fuel, N ≤ fuel →
            (FLASH_MEM.ProgramPage sr fuel adr sz buf m).2 = some 0
            ∧ halfWords (newWrites m (FLASH_MEM.ProgramPage sr fuel adr sz buf m).1)
                = specPageWrites adr buf ((sz + 1) / 2)) := by
  refine ⟨by decide, fun h => ?_⟩
  obtain ⟨N, hN⟩ := h (fun _ => 0) 0xFFFFFFFE 4 (bufOf [0xDE, 0xAD, 0xBE, 0xEF]) resetMachine
    (by decide) (fun i => ⟨i, Nat.le_refl i, (show u32 0 &&& FLASH_BSY = 0 by decide)⟩) (fun _ => (show u32 0 &&& FLASH_ERR = 0 by decide))
  have h1 := (hN (N + 3) (by omega)).2
  have hc : cleanPolls (fun _ => 0) [0, 0] resetMachine.srReads := by
    refine ⟨⟨fun t ht => by omega, by decide⟩, by decide, ⟨fun t ht => by omega, by decide⟩,
      by decide, trivial⟩
  have h2 := (programLoop_ok_run (fun _ => 0) FLASH_PG false [0, 0] (N + 3) 0xFFFFFFFE
    (adjustedSize 4) (bufOf [0xDE, 0xAD, 0xBE, 0xEF]) resetMachine hc (by decide) (by decide)
    (by simp)).2.1
  simp only [FLASH_MEM.ProgramPage, MEM_loop_eq] at h1
  rw [h2] at h1
  exact absurd h1 (by decide)

/-- C2: ProgramPage, in both builds, aborts at the first failing half-word.  Let the
half-words before index k = ps.length complete their busy-waits (after ps[0], ps[1], ...
busy polls) with no error flag in the status read that follows each wait, and let
half-word k complete its wait after p busy polls with PGERR or WRPRTERR set in the status
read that follows.  Then, with enough fuel, ProgramPage returns 1, its half-word writes are
exactly those of indices 0..k, the programming-enable bit (PG, resp. OPTPG) is clear in CR,
and its last bus write is its only write to SR, with both error bits set.  Conversely a
return value of 1 arises only from such a first error. -/
theorem ProgramPage_aborts_at_first_error (sr : Nat → Nat) (adr sz : Nat) (buf : Nat → Nat)
    (m : Machine) :
    (∀ (ps : List Nat) (p : Nat),
      ps.length < adjustedSize sz / 2 →
      cleanPolls sr ps m.srReads →
      busyFor sr (m.srReads + readsOf ps) p →
      u32 (sr (m.srReads + readsOf ps + p + 1)) &&& FLASH_ERR ≠ 0 →
      ∃ N, ∀ fuel, N ≤ fuel →
        ((FLASH_MEM.ProgramPage sr fuel adr sz buf m).2 = some 1
          ∧ halfWords (newWrites m (FLASH_MEM.ProgramPage sr fuel adr sz buf m).1)
              = pageWrites adr buf (ps.length + 1)
          ∧ (FLASH_MEM.ProgramPage sr fuel adr sz buf m).1.FLASH.CR &&& FLASH_PG = 0
          ∧ ∃ v, (newWrites m (FLASH_MEM.ProgramPage sr fuel adr sz buf m).1).getLast?
                = some (Access.w32 Reg.SR v)
              ∧ writesTo Reg.SR (newWrites m (FLASH_MEM.ProgramPage sr fuel adr sz buf m).1) = [v]
              ∧ v &&& FLASH_ERR = FLASH_ERR)
        ∧ ((FLASH_OPT.ProgramPage sr fuel adr sz buf m).2 = some 1
          ∧ halfWords (newWrites m (FLASH_OPT.ProgramPage sr fuel adr sz buf m).1)
              = pageWrites adr buf (ps.length + 1)
          ∧ (FLASH_OPT.ProgramPage sr fuel adr sz buf m).1.FLASH.CR &&& FLASH_OPTPG = 0
          ∧ ∃ v, (newWrites m (FLASH_OPT.ProgramPage sr fuel adr sz buf m).1).getLast?
                = some (Access.w32 Reg.SR v)
              ∧ writesTo Reg.SR (newWrites m (FLASH_OPT.ProgramPage sr fuel adr sz buf m).1) = [v]
              ∧ v &&& FLASH_ERR = FLASH_ERR))
    ∧ (∀ fuel,
        ((FLASH_MEM.ProgramPage sr fuel adr sz buf m).2 = some 1
          ∨ (FLASH_OPT.ProgramPage sr fuel adr sz buf m).2 = some 1) →
        ∃ (ps : List Nat) (p : Nat),
          ps.length < adjustedSize sz / 2
          ∧ cleanPolls sr ps m.srReads
          ∧ busyFor sr (m.srReads + readsOf ps) p
          ∧ u32 (sr (m.srReads + readsOf ps + p + 1)) &&& FLASH_ERR ≠ 0) := by
  have hev := adjustedSize_even sz
  have hlt := adjustedSize_lt sz
  constructor
  · intro ps p hk hc hb he
    refine ⟨ps.sum + p + ps.length + 1, fun fuel hf => ?_⟩
    have h1 := programLoop_err_run sr FLASH_PG false ps p fuel adr (adjustedSize sz) buf m
      (by decide) (by decide) hc hb he hev (by omega) hlt (by omega)
    have h2 := programLoop_err_run sr FLASH_OPTPG true ps p fuel adr (adjustedSize sz) buf m
      (by decide) (by decide) hc hb he hev (by omega) hlt (by omega)
    simp only [FLASH_MEM.ProgramPage, FLASH_OPT.ProgramPage, MEM_loop_eq, OPT_loop_eq]
    exact ⟨⟨h1.1, h1.2.1, h1.2.2.2.1, h1.2.2.2.2⟩, h2.1, h2.2.1, h2.2.2.2.1, h2.2.2.2.2⟩
  · intro fuel h
    simp only [FLASH_MEM.ProgramPage, FLASH_OPT.ProgramPage, MEM_loop_eq, OPT_loop_eq] at h
    rcases h with h | h
    · generalize hr : programLoop sr FLASH_PG false fuel fuel adr (adjustedSize sz) buf m = r at h
      rcases r with ⟨m1, o⟩
      simp only [] at h
      subst h
      obtain ⟨ps, p, hc, hb, he, hl⟩ := programLoop_one_inv sr FLASH_PG false fuel fuel adr
        (adjustedSize sz) buf m m1 hev hlt hr
      exact ⟨ps, p, by omega, hc, hb, he⟩
    · generalize hr : programLoop sr FLASH_OPTPG true fuel fuel adr (adjustedSize sz) buf m = r
        at h
      rcases r with ⟨m1, o⟩
      simp only [] at h
      subst h
      obtain ⟨ps, p, hc, hb, he, hl⟩ := programLoop_one_inv sr FLASH_OPTPG true fuel fuel adr
        (adjustedSize sz) buf m m1 hev hlt hr
      exact ⟨ps, p, by omega, hc, hb, he⟩

/-- C2, witness: three half-words requested, the second one fails. -/
theorem ProgramPage_aborts_at_first_error_witness :
    ([0].length < adjustedSize 6 / 2
      ∧ cleanPolls errAtThird [0] resetMachine.srReads
      ∧ busyFor errAtThird (resetMachine.srReads + readsOf [0]) 0
      ∧ u32 (errAtThird (resetMachine.srReads + readsOf [0] + 0 + 1)) &&& FLASH_ERR ≠ 0)
    ∧ ∃ N, ∀ fuel, N ≤ fuel →
        ((FLASH_MEM.ProgramPage errAtThird fuel 0x08000000 6 (bufOf [1, 2, 3, 4, 5, 6])
              resetMachine).2 = some 1
          ∧ halfWords (newWrites resetMachine (FLASH_MEM.ProgramPage errAtThird fuel 0x08000000 6
              (bufOf [1, 2, 3, 4, 5, 6]) resetMachine).1)
              = pageWrites 0x08000000 (bufOf [1, 2, 3, 4, 5, 6]) ([0].length + 1)
          ∧ (FLASH_MEM.ProgramPage errAtThird fuel 0x08000000 6 (bufOf [1, 2, 3, 4, 5, 6])
              resetMachine).1.FLASH.CR &&& FLASH_PG = 0
          ∧ ∃ v, (newWrites resetMachine (FLASH_MEM.ProgramPage errAtThird fuel 0x08000000 6
                (bufOf [1, 2, 3, 4, 5, 6]) resetMachine).1).getLast?
                = some (Access.w32 Reg.SR v)
              ∧ writesTo Reg.SR (newWrites resetMachine (FLASH_MEM.ProgramPage errAtThird fuel
                  0x08000000 6 (bufOf [1, 2, 3, 4, 5, 6]) resetMachine).1) = [v]
              ∧ v &&& FLASH_ERR = FLASH_ERR)
        ∧ ((FLASH_OPT.ProgramPage errAtThird fuel 0x08000000 6 (bufOf [1, 2, 3, 4, 5, 6])
              resetMachine).2 = some 1
          ∧ halfWords (newWrites resetMachine (FLASH_OPT.ProgramPage errAtThird fuel 0x08000000 6
              (bufOf [1, 2, 3, 4, 5, 6]) resetMachine).1)
              = pageWrites 0x08000000 (bufOf [1, 2, 3, 4, 5, 6]) ([0].length + 1)
          ∧ (FLASH_OPT.ProgramPage errAtThird fuel 0x08000000 6 (bufOf [1, 2, 3, 4, 5, 6])
              resetMachine).1.FLASH.CR &&& FLASH_OPTPG = 0
          ∧ ∃ v, (newWrites resetMachine (FLASH_OPT.ProgramPage errAtThird fuel 0x08000000 6
                (bufOf [1, 2, 3, 4, 5, 6]) resetMachine).1).getLast?
                = some (Access.w32 Reg.SR v)
              ∧ writesTo Reg.SR (newWrites resetMachine (FLASH_OPT.ProgramPage errAtThird fuel
                  0x08000000 6 (bufOf [1, 2, 3, 4, 5, 6]) resetMachine).1) = [v]
              ∧ v &&& FLASH_ERR = FLASH_ERR) :=
  ⟨by decide,
    (ProgramPage_aborts_at_first_error errAtThird 0x08000000 6 (bufOf [1, 2, 3, 4, 5, 6])
      resetMachine).1 [0] 0 (by decide) (by decide) (by decide) (by decide)⟩

/-- C3: option-byte EraseChip reports failure exactly when an error flag is set after the
re-protect sequence.  When the erase wait sees n1 busy polls and the wait after the
read-protect key sees n2, the function returns 1 if the status read that follows the
clearing of OPTPG shows PGERR or WRPRTERR, and then its last bus write puts both error bits
back into SR; otherwise it returns 0 and SR is written only by the initial reset of the
error flags.  On both paths the only half-word written is 0x55AA to 0x1FFFF800, right after
a CR write whose value has OPTER clear and OPTPG set, and before the CR write that clears
OPTPG. -/
theorem OPT_EraseChip_reports_reprotect_errors (sr : Nat → Nat) (m : Machine)
    (n1 n2 fuel : Nat)
    (h1 : busyFor sr (m.srReads + 1) n1) (h2 : busyFor sr (m.srReads + n1 + 2) n2)
    (hf1 : n1 < fuel) (hf2 : n2 < fuel) :
    (FLASH_OPT.EraseChip sr fuel m).2
        = some (if u32 (sr (m.srReads + n1 + n2 + 3)) &&& FLASH_ERR ≠ 0 then 1 else 0)
    ∧ (u32 (sr (m.srReads + n1 + n2 + 3)) &&& FLASH_ERR ≠ 0 →
        ∃ v, (newWrites m (FLASH_OPT.EraseChip sr fuel m).1).getLast?
              = some (Access.w32 Reg.SR v)
          ∧ v &&& FLASH_ERR = FLASH_ERR)
    ∧ (u32 (sr (m.srReads + n1 + n2 + 3)) &&& FLASH_ERR = 0 →
        writesTo Reg.SR (newWrites m (FLASH_OPT.EraseChip sr fuel m).1)
          = [u32 (u32 (sr m.srReads) ||| FLASH_ERR)])
    ∧ halfWords (newWrites m (FLASH_OPT.EraseChip sr fuel m).1)
        = [Access.w16 0x1FFFF800 0x55AA]
    ∧ ∃ c c1 post, newWrites m (FLASH_OPT.EraseChip sr fuel m).1
          = optEraseWrites (u32 (sr m.srReads)) m.FLASH.CR n1
            ++ [Access.w32 Reg.CR c, Access.w16 0x1FFFF800 0x55AA]
            ++ (List.replicate n2 (Access.w32 Reg.IWDG_KR 0xAAAA)
                ++ Access.w32 Reg.CR c1 :: post)
        ∧ c &&& FLASH_OPTER = 0 ∧ c &&& FLASH_OPTPG = FLASH_OPTPG
        ∧ c1 &&& FLASH_OPTPG = 0 := by
  rw [OPT_EraseChip_run sr m n1 n2 fuel h1 h2 hf1 hf2]
  have ht := afterReprotect_trace sr n1 n2 m
  have hc1 : u32 (u32 (optErasedCR m.FLASH.CR ||| FLASH_OPTPG) &&& not32 FLASH_OPTPG)
      &&& FLASH_OPTPG = 0 := by
    rw [test_after_clr _ _ _ (by decide), show not32 FLASH_OPTPG &&& FLASH_OPTPG = 0 by decide]
    simp
  by_cases he : u32 (sr (m.srReads + n1 + n2 + 3)) &&& FLASH_ERR ≠ 0
  · rw [if_pos he, if_pos he]
    have htr : (resetErrorFlags sr (polled 1 (afterReprotect sr n1 n2 m))).trace
        = m.trace ++ ((optEraseWrites (u32 (sr m.srReads)) m.FLASH.CR n1
          ++ [Access.w32 Reg.CR (u32 (optErasedCR m.FLASH.CR ||| FLASH_OPTPG)),
              Access.w16 0x1FFFF800 0x55AA]
          ++ (List.replicate n2 (Access.w32 Reg.IWDG_KR 0xAAAA)
            ++ [Access.w32 Reg.CR
                (u32 (u32 (optErasedCR m.FLASH.CR ||| FLASH_OPTPG) &&& not32 FLASH_OPTPG))]))
          ++ [Access.w32 Reg.SR
                (u32 (u32 (sr ((afterReprotect sr n1 n2 m).srReads + 1)) ||| FLASH_ERR))]) := by
      simp [ht]
    rw [newWrites_eq _ _ _ htr]
    refine ⟨rfl, fun _ => ⟨u32 (u32 (sr ((afterReprotect sr n1 n2 m).srReads + 1)) ||| FLASH_ERR),
      List.getLast?_concat _, written_back _⟩, fun h => absurd h he, ?_,
      u32 (optErasedCR m.FLASH.CR ||| FLASH_OPTPG),
      u32 (u32 (optErasedCR m.FLASH.CR ||| FLASH_OPTPG) &&& not32 FLASH_OPTPG),
      [Access.w32 Reg.SR
        (u32 (u32 (sr ((afterReprotect sr n1 n2 m).srReads + 1)) ||| FLASH_ERR))],
      by simp, (optErased_bits _).1, (optErased_bits _).2, hc1⟩
    simp [halfWords, isHalfWord, List.filter_replicate, optEraseWrites]
  · rw [if_neg he, if_neg he]
    have htr : (polled 1 (afterReprotect sr n1 n2 m)).trace
        = m.trace ++ (optEraseWrites (u32 (sr m.srReads)) m.FLASH.CR n1
          ++ [Access.w32 Reg.CR (u32 (optErasedCR m.FLASH.CR ||| FLASH_OPTPG)),
              Access.w16 0x1FFFF800 0x55AA]
          ++ (List.replicate n2 (Access.w32 Reg.IWDG_KR 0xAAAA)
            ++ Access.w32 Reg.CR
                (u32 (u32 (optErasedCR m.FLASH.CR ||| FLASH_OPTPG) &&& not32 FLASH_OPTPG))
              :: [])) := by
      simp [ht]
    rw [newWrites_eq _ _ _ htr]
    refine ⟨rfl, fun h => absurd h he, fun _ => ?_, ?_,
      _, _, _, rfl, (optErased_bits _).1, (optErased_bits _).2, hc1⟩
    · simp [writesTo, List.filterMap_replicate, optEraseWrites]
    · simp [halfWords, isHalfWord, List.filter_replicate, optEraseWrites]

/-- C3, witness: one busy poll during the erase, none after the key, WRPRTERR reported
at the final check: the function returns 1. -/
theorem OPT_EraseChip_reports_reprotect_errors_witness :
    (busyFor busyThenProtected (resetMachine.srReads + 1) 1
      ∧ busyFor busyThenProtected (resetMachine.srReads + 1 + 2) 0
      ∧ 1 < 5 ∧ 0 < 5)
    ∧ (if u32 (busyThenProtected (resetMachine.srReads + 1 + 0 + 3)) &&& FLASH_ERR ≠ 0
        then (1 : Int) else 0) = 1
    ∧ (FLASH_OPT.EraseChip busyThenProtected 5 resetMachine).2
        = some (if u32 (busyThenProtected (resetMachine.srReads + 1 + 0 + 3)) &&& FLASH_ERR ≠ 0
            then 1 else 0) :=
  ⟨by decide, by decide,
    (OPT_EraseChip_reports_reprotect_errors busyThenProtected resetMachine 1 0 5
      (by decide) (by decide) (by decide) (by decide)).1⟩

/-- C4: UnInit locks the controller and the lock persists.  For every machine and function
code, UnInit (both builds) returns 0 with LOCK set in CR; and every EraseChip, EraseSector
or ProgramPage run (either build, any arguments, any status behaviour, any amount of fuel,
so also at every point of an unfinished run) started from that machine writes neither KEYR
nor OPTKEYR, writes only values with LOCK set to CR, and stands with LOCK set in CR. -/
theorem UnInit_locks_and_lock_persists (sr : Nat → Nat) (m : Machine)
    (fnc fuel adr sz : Nat) (buf : Nat → Nat) :
    ((FLASH_MEM.UnInit fnc m).2 = 0
      ∧ (FLASH_MEM.UnInit fnc m).1.FLASH.CR &&& FLASH_LOCK = FLASH_LOCK
      ∧ lockHeldByAll sr fuel adr sz buf (FLASH_MEM.UnInit fnc m).1)
    ∧ ((FLASH_OPT.UnInit fnc m).2 = 0
      ∧ (FLASH_OPT.UnInit fnc m).1.FLASH.CR &&& FLASH_LOCK = FLASH_LOCK
      ∧ lockHeldByAll sr fuel adr sz buf (FLASH_OPT.UnInit fnc m).1) := by
  have h1 : (FLASH_MEM.UnInit fnc m).1.FLASH.CR &&& FLASH_LOCK = FLASH_LOCK := by
    simp only [FLASH_MEM.UnInit, setCR_CR]
    rw [u32_and _ _ (by decide), or_and_self]
  have h2 : (FLASH_OPT.UnInit fnc m).1.FLASH.CR &&& FLASH_LOCK = FLASH_LOCK := by
    simp only [FLASH_OPT.UnInit, setCR_CR]
    rw [u32_and _ _ (by decide), or_and_self]
  exact ⟨⟨rfl, h1, lockHeldByAll_of_locked sr fuel adr sz buf _ h1⟩,
    rfl, h2, lockHeldByAll_of_locked sr fuel adr sz buf _ h2⟩

/-- C5: Init is idempotent.  In the register model (KEY1 then KEY2 written to KEYR clears
LOCK; the status register reads as a register across the two calls), for every machine
and every argument triple, Init run twice in succession returns 0 both times and leaves the
same register state as Init run once, with LOCK clear in CR; each call writes the key pair
to KEYR, and the option-byte build writes the same pair to OPTKEYR as well. -/
theorem Init_idempotent (sr : Nat → Nat) (m : Machine) (adr clk fnc : Nat)
    (h : statusSettled sr m.srReads) :
    ((FLASH_MEM.Init sr adr clk fnc m).2 = 0
      ∧ (FLASH_MEM.Init sr adr clk fnc (FLASH_MEM.Init sr adr clk fnc m).1).2 = 0
      ∧ regs (FLASH_MEM.Init sr adr clk fnc (FLASH_MEM.Init sr adr clk fnc m).1).1
          = regs (FLASH_MEM.Init sr adr clk fnc m).1
      ∧ (FLASH_MEM.Init sr adr clk fnc m).1.FLASH.CR &&& FLASH_LOCK = 0
      ∧ writesTo Reg.KEYR (newWrites m (FLASH_MEM.Init sr adr clk fnc m).1)
          = [FLASH_KEY1, FLASH_KEY2])
    ∧ ((FLASH_OPT.Init sr adr clk fnc m).2 = 0
      ∧ (FLASH_OPT.Init sr adr clk fnc (FLASH_OPT.Init sr adr clk fnc m).1).2 = 0
      ∧ regs (FLASH_OPT.Init sr adr clk fnc (FLASH_OPT.Init sr adr clk fnc m).1).1
          = regs (FLASH_OPT.Init sr adr clk fnc m).1
      ∧ (FLASH_OPT.Init sr adr clk fnc m).1.FLASH.CR &&& FLASH_LOCK = 0
      ∧ writesTo Reg.KEYR (newWrites m (FLASH_OPT.Init sr adr clk fnc m).1)
          = [FLASH_KEY1, FLASH_KEY2]
      ∧ writesTo Reg.OPTKEYR (newWrites m (FLASH_OPT.Init sr adr clk fnc m).1)
          = [FLASH_KEY1, FLASH_KEY2]) :=
  ⟨MEM_Init_twice sr m adr clk fnc h, OPT_Init_twice sr m adr clk fnc h⟩

/-- C5, witness: Init(0x08000000, 8000000, 2) on the machine after reset, with a status
register that always reads 0: the controller is locked before and unlocked after. -/
theorem Init_idempotent_witness :
    (statusSettled (fun _ => 0) resetMachine.srReads
      ∧ resetMachine.FLASH.CR &&& FLASH_LOCK = FLASH_LOCK)
    ∧ ((FLASH_MEM.Init (fun _ => 0) 0x08000000 8000000 2 resetMachine).2 = 0
      ∧ (FLASH_MEM.Init (fun _ => 0) 0x08000000 8000000 2
          (FLASH_MEM.Init (fun _ => 0) 0x08000000 8000000 2 resetMachine).1).2 = 0
      ∧ regs (FLASH_MEM.Init (fun _ => 0) 0x08000000 8000000 2
          (FLASH_MEM.Init (fun _ => 0) 0x08000000 8000000 2 resetMachine).1).1
          = regs (FLASH_MEM.Init (fun _ => 0) 0x08000000 8000000 2 resetMachine).1
      ∧ (FLASH_MEM.Init (fun _ => 0) 0x08000000 8000000 2 resetMachine).1.FLASH.CR
          &&& FLASH_LOCK = 0
      ∧ writesTo Reg.KEYR (newWrites resetMachine
          (FLASH_MEM.Init (fun _ => 0) 0x08000000 8000000 2 resetMachine).1)
          = [FLASH_KEY1, FLASH_KEY2]) :=
  ⟨by decide, (Init_idempotent (fun _ => 0) resetMachine 0x08000000 8000000 2 (by decide)).1⟩

/-- C6: the erase functions without an error check always succeed and leave their
erase-enable bit clear.  For every machine, address and status behaviour in which the
busy-wait sees n busy polls (whatever the error flags read), option-byte EraseSector
returns 0 with OPTER clear and writes CR, CR, n watchdog reloads, CR and nothing else (so
neither AR nor SR); main-memory EraseSector returns 0 with PER clear, AR holding adr, and
writes CR, AR, CR, n reloads, CR; main-memory EraseChip returns 0 with MER clear and writes
CR, CR, n reloads, CR.  The results do not depend on the error flags. -/
theorem erase_without_error_check_succeeds (sr : Nat → Nat) (m : Machine) (adr n fuel : Nat)
    (hadr : adr < 2 ^ 32) (h : busyFor sr m.srReads n) (hf : n < fuel) :
    ((FLASH_OPT.EraseSector sr fuel adr m).2 = some 0
      ∧ (FLASH_OPT.EraseSector sr fuel adr m).1.FLASH.CR &&& FLASH_OPTER = 0
      ∧ (FLASH_OPT.EraseSector sr fuel adr m).1.FLASH.AR = m.FLASH.AR
      ∧ newWrites m (FLASH_OPT.EraseSector sr fuel adr m).1 =
          [Access.w32 Reg.CR (u32 (m.FLASH.CR ||| FLASH_OPTER)),
           Access.w32 Reg.CR (u32 (u32 (m.FLASH.CR ||| FLASH_OPTER) ||| FLASH_STRT))]
          ++ List.replicate n (Access.w32 Reg.IWDG_KR 0xAAAA)
          ++ [Access.w32 Reg.CR (u32
                (u32 (u32 (m.FLASH.CR ||| FLASH_OPTER) ||| FLASH_STRT) &&& not32 FLASH_OPTER))])
    ∧ ((FLASH_MEM.EraseSector sr fuel adr m).2 = some 0
      ∧ (FLASH_MEM.EraseSector sr fuel adr m).1.FLASH.CR &&& FLASH_PER = 0
      ∧ (FLASH_MEM.EraseSector sr fuel adr m).1.FLASH.AR = adr
      ∧ newWrites m (FLASH_MEM.EraseSector sr fuel adr m).1 =
          [Access.w32 Reg.CR (u32 (m.FLASH.CR ||| FLASH_PER)),
           Access.w32 Reg.AR adr,
           Access.w32 Reg.CR (u32 (u32 (m.FLASH.CR ||| FLASH_PER) ||| FLASH_STRT))]
          ++ List.replicate n (Access.w32 Reg.IWDG_KR 0xAAAA)
          ++ [Access.w32 Reg.CR (u32
                (u32 (u32 (m.FLASH.CR ||| FLASH_PER) ||| FLASH_STRT) &&& not32 FLASH_PER))])
    ∧ ((FLASH_MEM.EraseChip sr fuel m).2 = some 0
      ∧ (FLASH_MEM.EraseChip sr fuel m).1.FLASH.CR &&& FLASH_MER = 0
      ∧ newWrites m (FLASH_MEM.EraseChip sr fuel m).1 =
          [Access.w32 Reg.CR (u32 (m.FLASH.CR ||| FLASH_MER)),
           Access.w32 Reg.CR (u32 (u32 (m.FLASH.CR ||| FLASH_MER) ||| FLASH_STRT))]
          ++ List.replicate n (Access.w32 Reg.IWDG_KR 0xAAAA)
          ++ [Access.w32 Reg.CR (u32
                (u32 (u32 (m.FLASH.CR ||| FLASH_MER) ||| FLASH_STRT) &&& not32 FLASH_MER))]) := by
  have ha : u32 adr = adr := Nat.mod_eq_of_lt hadr
  rw [OPT_EraseSector_run sr m adr n fuel h hf, MEM_EraseSector_run sr m adr n fuel h hf,
    MEM_EraseChip_run sr m n fuel h hf]
  refine ⟨⟨rfl, ?_, ?_, ?_⟩, ⟨rfl, ?_, ?_, ?_⟩, rfl, ?_, ?_⟩
  · simp only [clrCR_CR]
    rw [test_after_clr _ _ _ (by decide), show not32 FLASH_OPTER &&& FLASH_OPTER = 0 by decide]
    simp
  · simp [clrCR, setCR, wr, store]
  · apply newWrites_eq
    simp
  · simp only [clrCR_CR]
    rw [test_after_clr _ _ _ (by decide), show not32 FLASH_PER &&& FLASH_PER = 0 by decide]
    simp
  · simp [clrCR, setCR, wr, store, ha]
  · apply newWrites_eq
    simp [ha]
  · simp only [clrCR_CR]
    rw [test_after_clr _ _ _ (by decide), show not32 FLASH_MER &&& FLASH_MER = 0 by decide]
    simp
  · apply newWrites_eq
    simp

/-- C6, witness: hardware that shows PGERR and WRPRTERR at every read and is busy for two
polls; sector 0x08000800. -/
theorem erase_without_error_check_succeeds_witness :
    ((0x08000800 : Nat) < 2 ^ 32 ∧ busyFor alwaysInError resetMachine.srReads 2 ∧ 2 < 3)
    ∧ (FLASH_OPT.EraseSector alwaysInError 3 0x08000800 resetMachine).2 = some 0
    ∧ (FLASH_MEM.EraseSector alwaysInError 3 0x08000800 resetMachine).2 = some 0
    ∧ (FLASH_MEM.EraseSector alwaysInError 3 0x08000800 resetMachine).1.FLASH.AR = 0x08000800
    ∧ (FLASH_MEM.EraseChip alwaysInError 3 resetMachine).2 = some 0 :=
  ⟨by decide,
    (erase_without_error_check_succeeds alwaysInError resetMachine 0x08000800 2 3
      (by decide) (by decide) (by decide)).1.1,
    (erase_without_error_check_succeeds alwaysInError resetMachine 0x08000800 2 3
      (by decide) (by decide) (by decide)).2.1.1,
    (erase_without_error_check_succeeds alwaysInError resetMachine 0x08000800 2 3
      (by decide) (by decide) (by decide)).2.1.2.2.1,
    (erase_without_error_check_succeeds alwaysInError resetMachine 0x08000800 2 3
      (by decide) (by decide) (by decide)).2.2.1⟩

/-- C7: the watchdog is reloaded on every busy-poll iteration.  Reading only the half-word
writes and the watchdog key writes of a run: main-memory EraseChip and both EraseSector
builds, whose wait sees n busy polls, make exactly n reloads (0xAAAA to the IWDG key
register); option-byte EraseChip makes n1 reloads in its first wait, then writes the
read-protect key, then makes n2 reloads in its second wait; option-byte ProgramPage follows
every half-word write by exactly as many reloads as that half-word's wait saw busy polls
(ps[k] for half-word k, so n each when every wait sees n), on the successful path and on
the path that ends with an error; main-memory ProgramPage never writes the watchdog key
register, whatever the status behaviour and the fuel. -/
theorem watchdog_reloaded_on_every_busy_poll (sr : Nat → Nat) (m : Machine) :
    (∀ n fuel adr, busyFor sr m.srReads n → n < fuel →
      wdView (newWrites m (FLASH_MEM.EraseChip sr fuel m).1)
          = List.replicate n (Access.w32 Reg.IWDG_KR 0xAAAA)
      ∧ wdView (newWrites m (FLASH_MEM.EraseSector sr fuel adr m).1)
          = List.replicate n (Access.w32 Reg.IWDG_KR 0xAAAA)
      ∧ wdView (newWrites m (FLASH_OPT.EraseSector sr fuel adr m).1)
          = List.replicate n (Access.w32 Reg.IWDG_KR 0xAAAA))
    ∧ (∀ n1 n2 fuel, busyFor sr (m.srReads + 1) n1 → busyFor sr (m.srReads + n1 + 2) n2 →
      n1 < fuel → n2 < fuel →
      wdView (newWrites m (FLASH_OPT.EraseChip sr fuel m).1)
          = List.replicate n1 (Access.w32 Reg.IWDG_KR 0xAAAA)
            ++ Access.w16 0x1FFFF800 0x55AA
              :: List.replicate n2 (Access.w32 Reg.IWDG_KR 0xAAAA))
    ∧ (∀ ps fuel adr sz buf, cleanPolls sr ps m.srReads → adjustedSize sz = 2 * ps.length →
      ps.sum + ps.length < fuel →
      (FLASH_OPT.ProgramPage sr fuel adr sz buf m).2 = some 0
      ∧ wdView (newWrites m (FLASH_OPT.ProgramPage sr fuel adr sz buf m).1)
          = wdWrites true adr buf ps
      ∧ reloads (wdWrites true adr buf ps) = ps.sum)
    ∧ (∀ ps p fuel adr sz buf, cleanPolls sr ps m.srReads →
      busyFor sr (m.srReads + readsOf ps) p →
      u32 (sr (m.srReads + readsOf ps + p + 1)) &&& FLASH_ERR ≠ 0 →
      ps.length < adjustedSize sz / 2 → ps.sum + p + ps.length < fuel →
      (FLASH_OPT.ProgramPage sr fuel adr sz buf m).2 = some 1
      ∧ wdView (newWrites m (FLASH_OPT.ProgramPage sr fuel adr sz buf m).1)
          = wdWrites true adr buf (ps ++ [p]))
    ∧ (∀ fuel adr sz buf a,
      a ∈ newWrites m (FLASH_MEM.ProgramPage sr fuel adr sz buf m).1 → isKick a = false) := by
  refine ⟨?_, ?_, ?_, ?_, ?_⟩
  · intro n fuel adr h hf
    rw [OPT_EraseSector_run sr m adr n fuel h hf, MEM_EraseSector_run sr m adr n fuel h hf,
      MEM_EraseChip_run sr m n fuel h hf]
    refine ⟨?_, ?_, ?_⟩
    · rw [newWrites_eq _ _ ([Access.w32 Reg.CR (u32 (m.FLASH.CR ||| FLASH_MER)),
           Access.w32 Reg.CR (u32 (u32 (m.FLASH.CR ||| FLASH_MER) ||| FLASH_STRT))]
          ++ List.replicate n (Access.w32 Reg.IWDG_KR 0xAAAA)
          ++ [Access.w32 Reg.CR (u32
                (u32 (u32 (m.FLASH.CR ||| FLASH_MER) ||| FLASH_STRT) &&& not32 FLASH_MER))])
        (by simp)]
      simp [wdView, isHalfWord, isKick, List.filter_replicate]
    · rw [newWrites_eq _ _ ([Access.w32 Reg.CR (u32 (m.FLASH.CR ||| FLASH_PER)),
           Access.w32 Reg.AR (u32 adr),
           Access.w32 Reg.CR (u32 (u32 (m.FLASH.CR ||| FLASH_PER) ||| FLASH_STRT))]
          ++ List.replicate n (Access.w32 Reg.IWDG_KR 0xAAAA)
          ++ [Access.w32 Reg.CR (u32
                (u32 (u32 (m.FLASH.CR ||| FLASH_PER) ||| FLASH_STRT) &&& not32 FLASH_PER))])
        (by simp)]
      simp [wdView, isHalfWord, isKick, List.filter_replicate]
    · rw [newWrites_eq _ _ ([Access.w32 Reg.CR (u32 (m.FLASH.CR ||| FLASH_OPTER)),
           Access.w32 Reg.CR (u32 (u32 (m.FLASH.CR ||| FLASH_OPTER) ||| FLASH_STRT))]
          ++ List.replicate n (Access.w32 Reg.IWDG_KR 0xAAAA)
          ++ [Access.w32 Reg.CR (u32
                (u32 (u32 (m.FLASH.CR ||| FLASH_OPTER) ||| FLASH_STRT) &&& not32 FLASH_OPTER))])
        (by simp)]
      simp [wdView, isHalfWord, isKick, List.filter_replicate]
  · intro n1 n2 fuel h1 h2 hf1 hf2
    rw [OPT_EraseChip_run sr m n1 n2 fuel h1 h2 hf1 hf2]
    have ht := afterReprotect_trace sr n1 n2 m
    split_ifs
    · have htr : (resetErrorFlags sr (polled 1 (afterReprotect sr n1 n2 m))).trace
          = m.trace ++ ((optEraseWrites (u32 (sr m.srReads)) m.FLASH.CR n1
            ++ [Access.w32 Reg.CR (u32 (optErasedCR m.FLASH.CR ||| FLASH_OPTPG)),
                Access.w16 0x1FFFF800 0x55AA]
            ++ (List.replicate n2 (Access.w32 Reg.IWDG_KR 0xAAAA)
              ++ [Access.w32 Reg.CR
                  (u32 (u32 (optErasedCR m.FLASH.CR ||| FLASH_OPTPG) &&& not32 FLASH_OPTPG))]))
            ++ [Access.w32 Reg.SR
                  (u32 (u32 (sr ((afterReprotect sr n1 n2 m).srReads + 1)) ||| FLASH_ERR))]) := by
        simp [ht]
      rw [newWrites_eq _ _ _ htr]
      simp [wdView, isHalfWord, isKick, List.filter_replicate, optEraseWrites]
    · have htr : (polled 1 (afterReprotect sr n1 n2 m)).trace = m.trace ++ _ := ht
      rw [newWrites_eq _ _ _ htr]
      simp [wdView, isHalfWord, isKick, List.filter_replicate, optEraseWrites]
  · intro ps fuel adr sz buf hc hsz hf
    have h := programLoop_ok_run sr FLASH_OPTPG true ps fuel adr (adjustedSize sz) buf m hc hsz
      (adjustedSize_lt sz) hf
    simp only [FLASH_OPT.ProgramPage, OPT_loop_eq]
    refine ⟨h.1, h.2.2, ?_⟩
    clear h hc hsz hf
    induction ps generalizing adr buf with
    | nil => rfl
    | cons p ps ih =>
      have := ih (u32 (adr + 2)) (shift2 buf)
      simp only [reloads] at this ⊢
      simp [wdWrites, List.count_cons, List.count_append, List.count_replicate, this]
  · intro ps p fuel adr sz buf hc hb he hk hf
    have hev := adjustedSize_even sz
    have h := programLoop_err_run sr FLASH_OPTPG true ps p fuel adr (adjustedSize sz) buf m
      (by decide) (by decide) hc hb he hev (by omega) (adjustedSize_lt sz) hf
    simp only [FLASH_OPT.ProgramPage, OPT_loop_eq]
    exact ⟨h.1, h.2.2.1⟩
  · intro fuel adr sz buf a ha
    simp only [FLASH_MEM.ProgramPage, MEM_loop_eq] at ha
    exact Ext_newWrites _ _ _ (nokick_programLoop sr FLASH_PG fuel fuel adr (adjustedSize sz) buf m)
      a ha

/-- C7, witness: every wait sees two busy polls; option-byte ProgramPage of two half-words
makes two reloads after each half-word write. -/
theorem watchdog_reloaded_on_every_busy_poll_witness :
    (cleanPolls busyTwice [2, 2] resetMachine.srReads ∧ adjustedSize 4 = 2 * [2, 2].length
      ∧ [2, 2].sum + [2, 2].length < 7)
    ∧ wdWrites true 0x1FFFF800 (bufOf [0xAA, 0x55, 0xFF, 0x00]) [2, 2]
        = [Access.w16 0x1FFFF800 0x55AA, Access.w32 Reg.IWDG_KR 0xAAAA,
           Access.w32 Reg.IWDG_KR 0xAAAA, Access.w16 0x1FFFF802 0x00FF,
           Access.w32 Reg.IWDG_KR 0xAAAA, Access.w32 Reg.IWDG_KR 0xAAAA]
    ∧ ((FLASH_OPT.ProgramPage busyTwice 7 0x1FFFF800 4 (bufOf [0xAA, 0x55, 0xFF, 0x00])
          resetMachine).2 = some 0
      ∧ wdView (newWrites resetMachine (FLASH_OPT.ProgramPage busyTwice 7 0x1FFFF800 4
          (bufOf [0xAA, 0x55, 0xFF, 0x00]) resetMachine).1)
          = wdWrites true 0x1FFFF800 (bufOf [0xAA, 0x55, 0xFF, 0x00]) [2, 2]
      ∧ reloads (wdWrites true 0x1FFFF800 (bufOf [0xAA, 0x55, 0xFF, 0x00]) [2, 2])
          = [2, 2].sum) :=
  ⟨by decide, by decide,
    (watchdog_reloaded_on_every_busy_poll busyTwice resetMachine).2.2.1 [2, 2] 7 0x1FFFF800 4
      (bufOf [0xAA, 0x55, 0xFF, 0x00]) (by decide) (by decide) (by decide)⟩

/-- C8 (as amended): for each of the three descriptors, the sector list read as the source
comments word it, (sector size, offset of the first sector) pairs, expands to consecutive
sectors (128 and 256 sectors of 2 kB, one sector of 16 bytes) that exactly cover the range
from the base address to base address + total size, with no gap and no overlap, and the
list ends with SECTOR_END. -/
theorem sector_lists_cover_the_devices (v t : Nat) :
    (exactlyCovers (FlashDevice_STM32F3xx_256 v t)
        (expandAddressed (FlashDevice_STM32F3xx_256 v t).DevAdr
          (FlashDevice_STM32F3xx_256 v t).szDev (FlashDevice_STM32F3xx_256 v t).sectors)
      ∧ (FlashDevice_STM32F3xx_256 v t).sectors.getLast? = some SectorItem.SECTOR_END
      ∧ (FlashDevice_STM32F3xx_256 v t).DevAdr = 0x08000000
      ∧ (FlashDevice_STM32F3xx_256 v t).szDev = 0x00040000)
    ∧ (exactlyCovers (FlashDevice_STM32F3xx_512 v t)
        (expandAddressed (FlashDevice_STM32F3xx_512 v t).DevAdr
          (FlashDevice_STM32F3xx_512 v t).szDev (FlashDevice_STM32F3xx_512 v t).sectors)
      ∧ (FlashDevice_STM32F3xx_512 v t).sectors.getLast? = some SectorItem.SECTOR_END
      ∧ (FlashDevice_STM32F3xx_512 v t).DevAdr = 0x08000000
      ∧ (FlashDevice_STM32F3xx_512 v t).szDev = 0x00080000)
    ∧ (exactlyCovers (FlashDevice_FLASH_OPT v t)
        (expandAddressed (FlashDevice_FLASH_OPT v t).DevAdr
          (FlashDevice_FLASH_OPT v t).szDev (FlashDevice_FLASH_OPT v t).sectors)
      ∧ (FlashDevice_FLASH_OPT v t).sectors.getLast? = some SectorItem.SECTOR_END
      ∧ (FlashDevice_FLASH_OPT v t).DevAdr = 0x1FFFF800
      ∧ (FlashDevice_FLASH_OPT v t).szDev = 0x10) := by
  refine ⟨⟨exactlyCovers_of_tiles _ _ ?_, rfl, rfl, rfl⟩,
    ⟨exactlyCovers_of_tiles _ _ ?_, rfl, rfl, rfl⟩,
    ⟨exactlyCovers_of_tiles _ _ ?_, rfl, rfl, rfl⟩⟩
  · rw [expandAddressed_256]
    exact tiles_range 0x800 (by decide) 128 0x08000000
  · rw [expandAddressed_512]
    exact tiles_range 0x800 (by decide) 256 0x08000000
  · rw [expandAddressed_OPT]
    exact tiles_range 0x10 (by decide) 1 0x1FFFF800

/-- C8, counterexample to the claim as worded: read as (sector-size, sector-count) pairs,
the entry (0x800, 0) of the 256 kB descriptor has count 0, the list expands to no sector at
all, and so does not cover the 0x40000 bytes of the device (the same holds for the other
two descriptors). -/
theorem sector_entries_are_not_size_count_pairs :
    (FlashDevice_STM32F3xx_256 0 0).sectors
        = [SectorItem.sector 0x800 0, SectorItem.SECTOR_END]
    ∧ expandCounted (FlashDevice_STM32F3xx_256 0 0).DevAdr
        (FlashDevice_STM32F3xx_256 0 0).sectors = []
    ∧ ¬ tiles (FlashDevice_STM32F3xx_256 0 0).DevAdr
        ((FlashDevice_STM32F3xx_256 0 0).DevAdr + (FlashDevice_STM32F3xx_256 0 0).szDev)
        (expandCounted (FlashDevice_STM32F3xx_256 0 0).DevAdr
          (FlashDevice_STM32F3xx_256 0 0).sectors)
    ∧ expandCounted (FlashDevice_STM32F3xx_512 0 0).DevAdr
        (FlashDevice_STM32F3xx_512 0 0).sectors = []
    ∧ expandCounted (FlashDevice_FLASH_OPT 0 0).DevAdr
        (FlashDevice_FLASH_OPT 0 0).sectors = [] := by
  refine ⟨rfl, rfl, ?_, rfl, rfl⟩
  show ¬ ((0x08000000 : Nat) = 0x08000000 + 0x00040000)
  decide

/-- C9: main-memory EraseChip has no timeout.  If the first N polls all read BSY set, then
after N polls (fuel N) the function has produced no return value, has written exactly the
two CR writes that set MER and STRT followed by N watchdog reloads, and MER is still set in
CR.  Hence, if every poll reads BSY set, no amount of fuel yields a return value. -/
theorem MEM_EraseChip_never_times_out (sr : Nat → Nat) (m : Machine) :
    (∀ N, (∀ t, t < N → u32 (sr (m.srReads + t)) &&& FLASH_BSY ≠ 0) →
      (FLASH_MEM.EraseChip sr N m).2 = none
      ∧ newWrites m (FLASH_MEM.EraseChip sr N m).1 =
          [Access.w32 Reg.CR (u32 (m.FLASH.CR ||| FLASH_MER)),
           Access.w32 Reg.CR (u32 (u32 (m.FLASH.CR ||| FLASH_MER) ||| FLASH_STRT))]
          ++ List.replicate N (Access.w32 Reg.IWDG_KR 0xAAAA)
      ∧ reloads (newWrites m (FLASH_MEM.EraseChip sr N m).1) = N
      ∧ (FLASH_MEM.EraseChip sr N m).1.FLASH.CR &&& FLASH_MER = FLASH_MER)
    ∧ ((∀ t, u32 (sr (m.srReads + t)) &&& FLASH_BSY ≠ 0) →
        ∀ fuel, (FLASH_MEM.EraseChip sr fuel m).2 = none) := by
  have key : ∀ N, (∀ t, t < N → u32 (sr (m.srReads + t)) &&& FLASH_BSY ≠ 0) →
      FLASH_MEM.EraseChip sr N m = (kicked N (setCR FLASH_STRT (setCR FLASH_MER m)), none) := by
    intro N hN
    have h1 : ∀ t, t < N →
        u32 (sr ((setCR FLASH_STRT (setCR FLASH_MER m)).srReads + t)) &&& FLASH_BSY ≠ 0 := by
      simpa using hN
    simp only [FLASH_MEM.EraseChip, waitBusyIWDG_spin sr N _ h1]
  constructor
  · intro N hN
    rw [key N hN]
    refine ⟨rfl, ?_, ?_, ?_⟩
    · apply newWrites_eq
      simp
    · rw [newWrites_eq _ _ ([Access.w32 Reg.CR (u32 (m.FLASH.CR ||| FLASH_MER)),
           Access.w32 Reg.CR (u32 (u32 (m.FLASH.CR ||| FLASH_MER) ||| FLASH_STRT))]
          ++ List.replicate N (Access.w32 Reg.IWDG_KR 0xAAAA)) (by simp)]
      simp [reloads, List.count_replicate]
    · simp only [kicked_FLASH, setCR_CR]
      exact bit_stays _ _ _ (by decide)
  · intro hall fuel
    rw [key fuel (fun t _ => hall t)]

/-- C9, witness: three polls on hardware whose BSY flag never clears. -/
theorem MEM_EraseChip_never_times_out_witness :
    (∀ t, t < 3 → u32 (stuckBusy (resetMachine.srReads + t)) &&& FLASH_BSY ≠ 0)
    ∧ ((FLASH_MEM.EraseChip stuckBusy 3 resetMachine).2 = none
      ∧ newWrites resetMachine (FLASH_MEM.EraseChip stuckBusy 3 resetMachine).1 =
          [Access.w32 Reg.CR (u32 (resetMachine.FLASH.CR ||| FLASH_MER)),
           Access.w32 Reg.CR (u32 (u32 (resetMachine.FLASH.CR ||| FLASH_MER) ||| FLASH_STRT))]
          ++ List.replicate 3 (Access.w32 Reg.IWDG_KR 0xAAAA)
      ∧ reloads (newWrites resetMachine (FLASH_MEM.EraseChip stuckBusy 3 resetMachine).1) = 3
      ∧ (FLASH_MEM.EraseChip stuckBusy 3 resetMachine).1.FLASH.CR &&& FLASH_MER = FLASH_MER) :=
  ⟨fun _ _ => (show u32 1 &&& FLASH_BSY ≠ 0 by decide),
    (MEM_EraseChip_never_times_out stuckBusy resetMachine).1 3
      (fun _ _ => (show u32 1 &&& FLASH_BSY ≠ 0 by decide))⟩

/-- C10: size rounding in ProgramPage wraps at the top of the range.  For every
sz ≤ 0xFFFFFFFE the adjusted size (sz + 1) & ~1 is the least even number ≥ sz; for
sz = 0xFFFFFFFF it is 0, and ProgramPage (both builds) then returns 0 leaving the machine,
and so the bus record and CR, untouched, whatever the fuel.  For every sz the adjusted size
is even and below 2^32, and the loop counter after j decrements by 2 is the adjusted size
minus 2j for every j up to half the adjusted size: it never wraps and ends at exactly 0. -/
theorem adjusted_size_rounds_and_wraps (sr : Nat → Nat) (fuel adr : Nat) (buf : Nat → Nat)
    (m : Machine) :
    (∀ sz, sz ≤ 0xFFFFFFFE →
      adjustedSize sz % 2 = 0 ∧ sz ≤ adjustedSize sz
      ∧ ∀ e, e % 2 = 0 → sz ≤ e → adjustedSize sz ≤ e)
    ∧ adjustedSize 0xFFFFFFFF = 0
    ∧ FLASH_MEM.ProgramPage sr fuel adr 0xFFFFFFFF buf m = (m, some 0)
    ∧ FLASH_OPT.ProgramPage sr fuel adr 0xFFFFFFFF buf m = (m, some 0)
    ∧ (∀ sz, adjustedSize sz % 2 = 0 ∧ adjustedSize sz < 2 ^ 32
      ∧ (∀ j, j ≤ adjustedSize sz / 2 → sub2^[j] (adjustedSize sz) = adjustedSize sz - 2 * j)
      ∧ sub2^[adjustedSize sz / 2] (adjustedSize sz) = 0) := by
  have h0 : adjustedSize 0xFFFFFFFF = 0 := by decide
  refine ⟨?_, h0, ?_, ?_, ?_⟩
  · intro sz hsz
    rw [adjustedSize_eq sz (by omega)]
    refine ⟨by omega, by omega, fun e he hle => by omega⟩
  · rw [FLASH_MEM.ProgramPage, h0, MEM_loop_eq, programLoop_zero]
  · rw [FLASH_OPT.ProgramPage, h0, OPT_loop_eq, programLoop_zero]
  · intro sz
    have hev := adjustedSize_even sz
    have hlt := adjustedSize_lt sz
    refine ⟨hev, hlt, fun j hj => sub2_iterate j _ hev hlt (by omega), ?_⟩
    rw [sub2_iterate _ _ hev hlt (by omega)]
    omega

/-- C10, witness: sizes 5 and 0xFFFFFFFE round up to 6 and to themselves. -/
theorem adjusted_size_rounds_and_wraps_witness :
    ((5 : Nat) ≤ 0xFFFFFFFE ∧ adjustedSize 5 = 6 ∧ adjustedSize 0xFFFFFFFE = 0xFFFFFFFE)
    ∧ (adjustedSize 5 % 2 = 0 ∧ 5 ≤ adjustedSize 5
      ∧ ∀ e, e % 2 = 0 → 5 ≤ e → adjustedSize 5 ≤ e) :=
  ⟨by decide,
    (adjusted_size_rounds_and_wraps (fun _ => 0) 0 0 (fun _ => 0) resetMachine).1 5 (by decide)⟩

end STM32F3xx
